import Mathlib

/-!
Verification of the spacezine content-and-image synchronization pipeline.

The JavaScript sources embedded here are:
  - `src/src/lib/wordpress.js` (`downloadImage`, `fetchWordPressPosts`,
    `transformWordPressPost`, `getWordPressPosts`),
  - `src/scripts/sync-data.js` (`syncData`),
  - `src/unnamed/part_000` (the image-sync script: `extractDominantColor`,
    `downloadAndConvertImage`, `syncImages`; the first, color-aware variant
    in that file is embedded, the second variant is an older copy of the
    same script without color extraction).

Strings are modelled as `List Char`.  JavaScript regular-expression
rewrites (`matchAll`, `replace` with the `g` flag) are modelled by
left-to-right scanners over character lists that mirror the engine's
semantics for the concrete patterns used by the code: matches are found
in the original string, non-overlapping, earliest-first, and replacements
never re-scan replaced text.  The external world (network fetch, `cwebp`,
`sharp().stats()`, `node-vibrant`) is an explicit environment record, and
the filesystem is an explicit state record threaded through the stateful
operations.
-/

abbrev Str : Type := List Char

/-- Coerce a Lean string literal to the character-list representation. -/
def strOf (s : String) : Str := s.data

/-- Whitespace test used for the JS regex class `\s` and `String.trim`
(the common ASCII whitespace characters). -/
def isSpaceChar (c : Char) : Bool :=
  c = ' ' || c = '\t' || c = '\n' || c = '\r' || c = (Char.ofNat 11) || c = (Char.ofNat 12)

/-- Case-insensitive prefix test, mirroring a JS regex with the `i` flag
matching a literal pattern. -/
def isPrefixCI : Str → Str → Bool
  | [], _ => true
  | _ :: _, [] => false
  | p :: ps, c :: cs => (p.toLower == c.toLower) && isPrefixCI ps cs

/-- Case-insensitive suffix test (an `$`-anchored case-insensitive regex). -/
def endsWithCI (pat s : Str) : Bool := isPrefixCI pat.reverse s.reverse

/-- Substring containment, mirroring case-sensitive `String.prototype.includes`. -/
def containsSub (pat : Str) : Str → Bool
  | [] => pat.isEmpty
  | c :: rest => pat.isPrefixOf (c :: rest) || containsSub pat rest

/-- The private-origin gate of `downloadImage` / `downloadAndConvertImage`:
`imageUrl.includes('.local') || imageUrl.includes('localhost')`. -/
def isLocalUrl (u : Str) : Bool :=
  containsSub (strOf (".local")) u || containsSub (strOf ("localhost")) u

/-- Split a character list at the first occurrence of `q`, returning the
part before it and the part after it; `none` when `q` does not occur.
This models the regex fragment `[^q]*q` (greedy with backtracking). -/
def splitAtChar (q : Char) : Str → Option (Str × Str)
  | [] => none
  | c :: rest =>
      if c = q then some ([], rest)
      else (splitAtChar q rest).map (fun pr => (c :: pr.1, pr.2))

/-- Final path segment: everything after the last `'/'` (Node's
`path.basename` on a URL pathname). -/
def afterLastSlash (s : Str) : Str := (s.reverse.takeWhile (fun c => c ≠ '/')).reverse

/-- C0 control or space (code point at most U+0020), the set trimmed from
both ends of a URL string before parsing. -/
def isC0OrSpace (c : Char) : Bool := c.toNat < 33

/-- ASCII tab or newline (U+0009, U+000A, U+000D), removed everywhere in a
URL string before parsing. -/
def isTabOrNewline (c : Char) : Bool := c.toNat = 9 || c.toNat = 10 || c.toNat = 13

/-- Input normalization of the WHATWG URL parser: trim leading and trailing
C0 controls and spaces, then remove every ASCII tab and newline. -/
def normalizeUrlInput (u : Str) : Str :=
  (((u.dropWhile isC0OrSpace).reverse.dropWhile isC0OrSpace).reverse).filter
    (fun c => !(isTabOrNewline c))

/-- For a special (http/https) URL, `\` is treated exactly like `/` as a
path and authority separator. -/
def isSep (c : Char) : Bool := c = '/' || c = Char.ofNat 92

/-- The path percent-encode set: C0 controls, space, code points above
U+007E, and `"`, `#`, `<`, `>`, `?`, backtick, `{`, `}`. -/
def needsPathEncoding (c : Char) : Bool :=
  c.toNat < 33 || c.toNat > 126 ||
    c ∈ ['"', '#', '<', '>', '?', Char.ofNat 96, Char.ofNat 123, Char.ofNat 125]

/-- Uppercase hexadecimal digit, as used by percent-encoding. -/
def toHexUpperDigit (n : Nat) : Char :=
  if n < 10 then Char.ofNat (48 + n) else Char.ofNat (55 + n)

/-- Percent-encode one byte as `%XY` with uppercase hex digits. -/
def percentByte (b : Nat) : Str :=
  '%' :: [toHexUpperDigit (b / 16), toHexUpperDigit (b % 16)]

/-- UTF-8 bytes of a Unicode scalar value. -/
def utf8Bytes (n : Nat) : List Nat :=
  if n < 128 then [n]
  else if n < 2048 then [192 + n / 64, 128 + n % 64]
  else if n < 65536 then [224 + n / 4096, 128 + (n / 64) % 64, 128 + n % 64]
  else [240 + n / 262144, 128 + (n / 4096) % 64, 128 + (n / 64) % 64, 128 + n % 64]

/-- UTF-8 percent-encode a path character when it lies in the path
percent-encode set, otherwise keep it. -/
def encodePathChar (c : Char) : Str :=
  if needsPathEncoding c then ((utf8Bytes c.toNat).map percentByte).flatten else [c]

/-- Percent-encode every character of one path segment. -/
def encodeSeg (s : Str) : Str := (s.map encodePathChar).flatten

/-- Split a path remainder into segments at `/` and `\`; a trailing
separator yields a trailing empty segment, mirroring the parser's
buffer-flush on each separator and at the end of the path. -/
def splitSegs : Str → List Str
  | [] => [[]]
  | c :: rest =>
      if isSep c then [] :: splitSegs rest
      else
        match splitSegs rest with
        | [] => [[c]]
        | s :: ss => (c :: s) :: ss

/-- Single-dot path segment: `.` or an ASCII case-insensitive `%2e`. -/
def isSingleDotSeg (s : Str) : Bool :=
  s == strOf (".") || s.map Char.toLower == strOf ("%2e")

/-- Double-dot path segment: `..` or a case-insensitive `.%2e`, `%2e.`, or
`%2e%2e`. -/
def isDoubleDotSeg (s : Str) : Bool :=
  let t := s.map Char.toLower
  t == strOf ("..") || t == strOf (".%2e") || t == strOf ("%2e.") || t == strOf ("%2e%2e")

/-- Dot-segment resolution of the URL path state: a double-dot segment pops
the last collected segment, a single-dot segment is dropped, and either at
the end of the path leaves a trailing empty segment (the path keeps its
trailing slash). -/
def resolveDots (acc : List Str) : List Str → List Str
  | [] => acc
  | [s] =>
      if isDoubleDotSeg s then acc.dropLast ++ [[]]
      else if isSingleDotSeg s then acc ++ [[]]
      else acc ++ [s]
  | s :: rest =>
      if isDoubleDotSeg s then resolveDots acc.dropLast rest
      else if isSingleDotSeg s then resolveDots acc rest
      else resolveDots (acc ++ [s]) rest

/-- Decimal value of a digit run (the port number). -/
def natOfDigits (ds : Str) : Nat := ds.foldl (fun a d => a * 10 + (d.toNat - 48)) 0

/-- Validate what follows the host inside the authority: nothing, or a `:`
followed by decimal digits whose value fits in 16 bits (an empty port is
allowed); anything else makes `new URL` throw. -/
def validPortPart : Str → Bool
  | [] => true
  | c :: ds =>
      c = ':' && ds.all (fun d => '0' ≤ d && d ≤ '9') && (ds.isEmpty || natOfDigits ds < 65536)

/-- Node `path.basename`: ignore trailing `/` separators, then take
everything after the last remaining `/`. -/
def pathBasename (p : Str) : Str :=
  afterLastSlash ((p.reverse.dropWhile (fun c => c = '/')).reverse)

/-- Serialized pathname from the path remainder (the part after the
authority, cut at `?`/`#`): an absent path serializes as `/`; otherwise the
leading separator is dropped, the rest is split into segments, each segment
is percent-encoded, dot segments are resolved, and the result is joined
with `/` under a leading `/`. -/
def urlPathname (pathPart : Str) : Str :=
  match pathPart with
  | [] => ['/']
  | _ :: tail =>
      '/' :: List.intercalate ['/'] (resolveDots [] ((splitSegs tail).map encodeSeg))

/-- Parse the remainder after the scheme's `//`: skip extra separators,
read the authority up to a separator or `?`/`#`, take the host-and-port
after the last `@`, require a non-empty host before any `:` and a valid
port after it, then return the basename of the serialized pathname. -/
def urlBasenameCore (afterScheme : Str) : Option Str :=
  let rest := afterScheme.dropWhile isSep
  let auth := rest.takeWhile (fun c => !(isSep c) && c ≠ '?' && c ≠ '#')
  let hostPort := (auth.reverse.takeWhile (fun c => c ≠ '@')).reverse
  let host := hostPort.takeWhile (fun c => c ≠ ':')
  if host.isEmpty then none
  else if !(validPortPart (hostPort.drop host.length)) then none
  else some (pathBasename (urlPathname
    ((rest.drop auth.length).takeWhile (fun c => c ≠ '?' && c ≠ '#'))))

/-- Basename of the pathname of a WHATWG URL, modelling
`path.basename(new URL(imageUrl).pathname)` for http/https URLs: the input
is trimmed of C0 controls and spaces and stripped of tabs and newlines; the
scheme and the authority (userinfo, host, and a decimal port, which must be
valid) are dropped, with `\` treated like `/`; the path is cut at `?` or
`#`, split into segments, percent-encoded with the path percent-encode set,
and dot segments are resolved; the last segment of the serialized pathname
is returned.  A URL that does not parse here (no case-insensitive
`http://`/`https://` prefix, an empty host, or an invalid port) is `none`,
modelling the exception thrown by `new URL` and caught by the surrounding
`try`.  Host validation (forbidden host code points, IDNA) and non-http(s)
schemes are outside the modelled fragment, as are IPv6 bracket hosts. -/
def urlBasename (url : Str) : Option Str :=
  let norm := normalizeUrlInput url
  if isPrefixCI (strOf ("https://")) norm then urlBasenameCore (norm.drop 8)
  else if isPrefixCI (strOf ("http://")) norm then urlBasenameCore (norm.drop 7)
  else none

/-- A path character the URL parser passes through untouched: not in the
path percent-encode set (which contains the controls, space, tab, newline,
`?` and `#`) and not a `/` or `\` separator. -/
def plainPathChar (c : Char) : Bool := !(needsPathEncoding c) && !(isSep c)

/-- Deterministic cached filename of the image-sync script:
`fileName.replace(/\.(jpg|jpeg|png)$/i, '.webp')`.  Only the three listed
extensions are rewritten; any other name is kept unchanged. -/
def toWebpName (f : Str) : Str :=
  if endsWithCI (strOf (".jpg")) f then f.take (f.length - 4) ++ strOf (".webp")
  else if endsWithCI (strOf (".jpeg")) f then f.take (f.length - 5) ++ strOf (".webp")
  else if endsWithCI (strOf (".png")) f then f.take (f.length - 4) ++ strOf (".webp")
  else f

/-- Lowercase hexadecimal digit, as produced by JS `Number.toString(16)`. -/
def hexDigitChar (n : Nat) : Char :=
  if n < 10 then Char.ofNat (48 + n) else Char.ofNat (87 + n)

/-- Fuelled positional expansion for `toHex16`. -/
def toHex16Go : Nat → Nat → Str
  | 0, _ => []
  | fuel + 1, n =>
      if n < 16 then [hexDigitChar n]
      else toHex16Go fuel (n / 16) ++ [hexDigitChar (n % 16)]

/-- JS `x.toString(16)` for a non-negative integer: lowercase hex digits,
no leading zeros, `"0"` for zero. -/
def toHex16 (n : Nat) : Str := toHex16Go (n + 1) n

/-- Channel padding from `extractDominantColor`:
`hex.length === 1 ? '0' + hex : hex`. -/
def pad2 (h : Str) : Str := if h.length = 1 then '0' :: h else h

/-- Hex color assembly of `extractDominantColor`:
`'#' + [r, g, b].map(pad).join('')`. -/
def rgbHex (r g b : Nat) : Str :=
  '#' :: (pad2 (toHex16 r) ++ pad2 (toHex16 g) ++ pad2 (toHex16 b))

/-- Lowercase hexadecimal digit predicate (for the color-format claim). -/
def isLowerHexDigit (c : Char) : Bool :=
  ('0' ≤ c && c ≤ '9') || ('a' ≤ c && c ≤ 'f')

/-- The literal attribute opener `src="` that anchors the inline-image regex
`/src="(https?:\/\/[^"]*\.(jpg|jpeg|png|gif|webp|...))"/gi`. -/
def srcToken : Str := strOf ("src=\"")

/-- Scheme test `https?:\/\/` of the inline-image regex (case-insensitive). -/
def isHttpUrl (u : Str) : Bool :=
  isPrefixCI (strOf ("http://")) u || isPrefixCI (strOf ("https://")) u

/-- The raster extensions recognized by the inline-image regex (its
alternation lists each of these twice, once lowercase and once uppercase,
under the `i` flag, so the net test is case-insensitive membership). -/
def rasterExts : List Str :=
  [strOf (".jpg"), strOf (".jpeg"), strOf (".png"), strOf (".gif"), strOf (".webp")]

/-- Extension test `\.(jpg|jpeg|png|gif|webp)` anchored before the closing
quote of the matched `src` attribute. -/
def hasRasterExt (u : Str) : Bool := rasterExts.any (fun e => endsWithCI e u)

/-- Attempt to match the inline-image regex at the head of `s`.  A match is
`src="` (case-insensitively), then the run `u` of non-quote characters up to
the next `"`, subject to `u` beginning with `http://` or `https://` and
ending in a raster extension (both case-insensitive).  Returns
`(full, url, rest)`: the full matched text, the captured URL, and the
remainder of the string after the match. -/
def srcMatchAt (s : Str) : Option (Str × Str × Str) :=
  if isPrefixCI srcToken s then
    match splitAtChar '"' (s.drop 5) with
    | some (u, rest) =>
        if isHttpUrl u && hasRasterExt u then some (s.take (u.length + 6), u, rest)
        else none
    | none => none
  else none

/-- Fuelled scan for `content.matchAll(imageRegex)`: left to right, at each
position try the match; on success record `(full, url)` and resume after the
match, otherwise advance one character. -/
def srcMatchesGo : Nat → Str → List (Str × Str)
  | 0, _ => []
  | _, [] => []
  | fuel + 1, c :: rest =>
      match srcMatchAt (c :: rest) with
      | some (full, u, after) => (full, u) :: srcMatchesGo fuel after
      | none => srcMatchesGo fuel rest

/-- All matches of the inline-image regex in document order. -/
def srcMatches (s : Str) : List (Str × Str) := srcMatchesGo s.length s

/-- Index of the first occurrence of `t` in `s` (`none` when `t` does not
occur; the empty pattern occurs at index 0). -/
def findSub (t : Str) : Str → Option Nat
  | [] => if t.isEmpty then some 0 else none
  | c :: rest =>
      if t.isPrefixOf (c :: rest) then some 0
      else (findSub t rest).map (fun n => n + 1)

/-- The `GetSubstitution` expansion of a replacement string: `$$` yields a
literal `$`, `$&` the matched text, a `$` before a backtick the portion
before the match, `$'` the portion after it; any other `$` (including
`$<digit>`, since a string pattern has no capture groups) is kept literally
and scanning resumes at the following character. -/
def expandDollar (matched before after : Str) : Str → Str
  | [] => []
  | c :: r =>
      if c = '$' then
        match r with
        | [] => ['$']
        | d :: r' =>
            if d = '$' then '$' :: expandDollar matched before after r'
            else if d = '&' then matched ++ expandDollar matched before after r'
            else if d = Char.ofNat 96 then before ++ expandDollar matched before after r'
            else if d = Char.ofNat 39 then after ++ expandDollar matched before after r'
            else '$' :: d :: expandDollar matched before after r'
      else c :: expandDollar matched before after r

/-- JS `String.prototype.replace` with a plain-string pattern: replace the
first occurrence of `t` in `s` with the replacement `r`, with the `$`
substitution patterns of `r` expanded against the match. -/
def replaceFirst (s t r : Str) : Str :=
  match findSub t s with
  | none => s
  | some i =>
      s.take i ++ expandDollar t (s.take i) (s.drop (i + t.length)) r ++ s.drop (i + t.length)

/-- Attempt to match `\s*name="[^"]*"` at the head of `s` (the stripping
regexes `/\s*srcset="[^"]*"/gi` etc.).  Greedy `\s*` consumes the whole
whitespace run, after which the attribute opener must follow immediately;
the body runs to the next quote.  Returns the remainder after the match. -/
def stripMatchAt (name : Str) (s : Str) : Option Str :=
  if isPrefixCI (name ++ strOf ("=\"")) (s.drop (s.takeWhile isSpaceChar).length) then
    match
      splitAtChar '"' ((s.drop (s.takeWhile isSpaceChar).length).drop (name.length + 2)) with
    | some (_, rest) => some rest
    | none => none
  else none

/-- Fuelled scan for `content.replace(/\s*name="[^"]*"/gi, '')`: left to
right over the original string, deleting each match and resuming after it. -/
def stripAttrGo (name : Str) : Nat → Str → Str
  | 0, s => s
  | _, [] => []
  | fuel + 1, c :: rest =>
      match stripMatchAt name (c :: rest) with
      | some after => stripAttrGo name fuel after
      | none => c :: stripAttrGo name fuel rest

/-- Remove every `\s*name="[^"]*"` match from `s`. -/
def stripAttr (name : Str) (s : Str) : Str := stripAttrGo name s.length s

/-- Fuelled scan for `excerpt.replace(/<[^>]*>/g, '')`: delete every
markup tag, where a tag is `<`, a run of non-`>` characters, then `>`. -/
def stripTagsGo : Nat → Str → Str
  | 0, s => s
  | _, [] => []
  | fuel + 1, c :: rest =>
      if c = '<' then
        match splitAtChar '>' rest with
        | some (_, after) => stripTagsGo fuel after
        | none => c :: stripTagsGo fuel rest
      else c :: stripTagsGo fuel rest

/-- Remove every `<[^>]*>` match from `s`. -/
def stripTags (s : Str) : Str := stripTagsGo s.length s

/-- JS `String.prototype.trim` (over the modelled whitespace set). -/
def trimStr (s : Str) : Str :=
  ((s.dropWhile isSpaceChar).reverse.dropWhile isSpaceChar).reverse

/-- A category or tag label from the content API (`{ name, slug }`). -/
structure TaxTerm where
  name : Str
  slug : Str
deriving DecidableEq

/-- The `mediaDetails` object of a featured image (declared dimensions). -/
structure MediaDetails where
  width : Option Int
  height : Option Int
deriving DecidableEq

/-- The `featuredImage.node` object: remote source URL plus details.
An absent field is `none`; an empty-string URL is kept as the JS empty
string (falsiness is applied at the use sites, as in the code). -/
structure FeaturedNode where
  sourceUrl : Option Str
  mediaDetails : Option MediaDetails
deriving DecidableEq

/-- A WordPress post as returned by the GraphQL query (`data.posts.nodes`
item).  `featuredImage` and `author` collapse the intermediate `node`
wrapper; an absent optional chain is `none`. -/
structure WpPost where
  id : Str
  slug : Str
  title : Str
  content : Option Str
  excerpt : Option Str
  date : Str
  featuredImage : Option FeaturedNode
  author : Option Str
  categories : Option (List TaxTerm)
  tags : Option (List TaxTerm)
deriving DecidableEq

/-- The external world: network and external-tool behavior, fixed for one
run.  `fetchOk url` is whether `fetch(url)` yields an ok response;
`transcodeOk` is whether the `cwebp` invocation succeeds; `statsColor`
models `sharp(path).stats().dominant` (RGB channels, `none` when sharp
throws); `vibrantColor` models the `node-vibrant` palette fallback chain
`Vibrant?.hex || DarkVibrant?.hex || Muted?.hex || DarkMuted?.hex || null`;
`postsResponse` models the GraphQL posts query (`none` for a transport
failure, non-ok status, or a GraphQL error payload, all of which the code
catches and converts to an empty list). -/
structure Env where
  fetchOk : Str → Bool
  transcodeOk : Bool
  statsColor : Str → Option (Nat × Nat × Nat)
  vibrantColor : Str → Option Str
  postsResponse : Option (List WpPost)

/-- Filesystem state and operation tallies: existing files and directories,
plus counters of network fetches attempted and transcodes attempted. -/
structure FS where
  files : List Str
  dirs : List Str
  fetches : Nat
  transcodes : Nat
deriving DecidableEq

/-- The empty filesystem. -/
def FS.empty : FS := ⟨[], [], 0, 0⟩

/-- Directory and path constants of both scripts (resolved relative paths). -/
def pubImagesDir : Str := strOf ("public/images")

/-- The production-facing mirror directory. -/
def distImagesDir : Str := strOf ("dist/images")

/-- The metadata sidecar directory of the image-sync script. -/
def metaDirPath : Str := strOf ("public/images/meta")

/-- Node `path.join` for the paths used here (POSIX separator). -/
def joinPath (d f : Str) : Str := d ++ '/' :: f

/-- The web-facing path prefix `/images/` returned to records. -/
def imagesWeb : Str := strOf ("/images/")

/-- Dominant color via Sharp (image-sync script):
take `sharp(path).stats().dominant` and format `#rrggbb`; any error is
caught and yields `null`. -/
def extractDominantColor (env : Env) (path : Str) : Option Str :=
  (env.statsColor path).map (fun t => rgbHex t.1 t.2.1 t.2.2)

/-- The `downloadImage` function of `src/src/lib/wordpress.js`, with the
filesystem threaded explicitly.  A non-eligible (or absent) URL passes
through unchanged with a null color and no effects; otherwise the image is
fetched (a non-ok response or a thrown error yields nulls), written to the
`public` and `dist` image directories under the URL basename, and the
dominant color is extracted with node-vibrant.  No cache check and no
format conversion happen here. -/
def downloadImage (env : Env) (st : FS) (imageUrl : Option Str) :
    (Option Str × Option Str) × FS :=
  match imageUrl with
  | none => ((none, none), st)
  | some url =>
    if ¬ isLocalUrl url then ((some url, none), st)
    else if ¬ env.fetchOk url then ((none, none), { st with fetches := st.fetches + 1 })
    else
      match urlBasename url with
      | none => ((none, none), { st with fetches := st.fetches + 1 })
      | some fileName =>
        let publicImagePath := joinPath pubImagesDir fileName
        let distImagePath := joinPath distImagesDir fileName
        let st1 : FS :=
          { st with
            fetches := st.fetches + 1
            dirs := (st.dirs.insert pubImagesDir).insert distImagesDir
            files := (st.files.insert publicImagePath).insert distImagePath }
        let dominantColor := env.vibrantColor publicImagePath
        ((some (imagesWeb ++ fileName), dominantColor), st1)

/-- Result component of `downloadImage`.  The function performs no cache
check, so its result does not depend on the filesystem; the content
transformer only needs this component. -/
def downloadImageRes (env : Env) (imageUrl : Option Str) : Option Str × Option Str :=
  (downloadImage env FS.empty imageUrl).1

/-- The `downloadAndConvertImage` function of the image-sync script
(`src/unnamed/part_000`, color-aware variant).  Pass-through for absent or
non-eligible URLs; otherwise the deterministic WebP filename is derived and
a pre-existing cached file short-circuits fetch and transcode (re-deriving
the color and re-writing the metadata sidecar when extraction succeeds).
On a miss: fetch (failure yields nulls), write the raw bytes to both image
directories, transcode with `cwebp` (failure returns the raw local path
with a null color, keeping the originals), then delete the originals,
extract the dominant color from the WebP, and write the sidecar. -/
def downloadAndConvertImage (env : Env) (st : FS) (imageUrl : Option Str) :
    (Option Str × Option Str) × FS :=
  match imageUrl with
  | none => ((none, none), st)
  | some url =>
    if ¬ isLocalUrl url then ((some url, none), st)
    else
      match urlBasename url with
      | none => ((none, none), st)
      | some fileName =>
        let webpFileName := toWebpName fileName
        let webpPublicPath := joinPath pubImagesDir webpFileName
        let webpDistPath := joinPath distImagesDir webpFileName
        let metaFile := joinPath metaDirPath (webpFileName ++ strOf (".json"))
        if webpPublicPath ∈ st.files then
          let dominantColor := extractDominantColor env webpPublicPath
          let st1 : FS :=
            match dominantColor with
            | some _ =>
              { st with
                dirs := st.dirs.insert metaDirPath
                files := st.files.insert metaFile }
            | none => st
          ((some (imagesWeb ++ webpFileName), dominantColor), st1)
        else if ¬ env.fetchOk url then
          ((none, none), { st with fetches := st.fetches + 1 })
        else
          let publicImagePath := joinPath pubImagesDir fileName
          let distImagePath := joinPath distImagesDir fileName
          let st1 : FS :=
            { st with
              fetches := st.fetches + 1
              dirs := ((st.dirs.insert pubImagesDir).insert distImagesDir).insert metaDirPath
              files := (st.files.insert publicImagePath).insert distImagePath }
          if ¬ env.transcodeOk then
            ((some (imagesWeb ++ fileName), none),
              { st1 with transcodes := st1.transcodes + 1 })
          else
            let st2 : FS :=
              { st1 with
                transcodes := st1.transcodes + 1
                files :=
                  ((((st1.files.insert webpPublicPath).insert webpDistPath).erase
                      publicImagePath).erase distImagePath).insert metaFile }
            let dominantColor := extractDominantColor env webpPublicPath
            ((some (imagesWeb ++ webpFileName), dominantColor), st2)

/-- Build the replacement attribute `src="p"`. -/
def srcAttrOf (p : Str) : Str := srcToken ++ p ++ ['"']

/-- Loop body of the inline-image substitution: resolve the matched URL and
replace the first occurrence of the full matched text with
`src="<localPath>"`, or with `src=""` when resolution failed. -/
def substStep (env : Env) (acc : Str) (m : Str × Str) : Str :=
  match (downloadImageRes env (some m.2)).1 with
  | some lp => replaceFirst acc m.1 (srcAttrOf lp)
  | none => replaceFirst acc m.1 (srcAttrOf [])

/-- The inline-image substitution loop of `transformWordPressPost`: collect
all matches of the image regex from the original content, then substitute
each in order. -/
def substituteImages (env : Env) (c : Str) : Str :=
  (srcMatches c).foldl (substStep env) c

/-- Body-markup rewriting of `transformWordPressPost`: substitute inline
image references, then strip `srcset`, `sizes`, `width`, and `height`
attributes, in that order. -/
def transformContent (env : Env) (c : Str) : Str :=
  stripAttr (strOf ("height"))
    (stripAttr (strOf ("width"))
      (stripAttr (strOf ("sizes"))
        (stripAttr (strOf ("srcset")) (substituteImages env c))))

/-- The `data` payload of a transformed post (Astro-compatible shape). -/
structure PostData where
  title : Str
  description : Str
  pubDate : Str
  heroImage : Option Str
  imageWidth : Option Int
  imageHeight : Option Int
  dominantColor : Option Str
  author : Option Str
  categories : List TaxTerm
  tags : List TaxTerm
  wpId : Str
deriving DecidableEq

/-- A transformed post (`transformWordPressPost` output). -/
structure AstroPost where
  id : Str
  slug : Str
  data : PostData
  content : Option Str
deriving DecidableEq

/-- JS falsiness of an optional string (`null`, `undefined`, `''`). -/
def falsyStr : Option Str → Bool
  | none => true
  | some s => s.isEmpty

/-- The featured-image URL after `wpPost.featuredImage?.node?.sourceUrl || null`. -/
def heroUrlOf (p : WpPost) : Option Str :=
  match p.featuredImage with
  | some n =>
      match n.sourceUrl with
      | some su => if su.isEmpty then none else some su
      | none => none
  | none => none

/-- Declared width after `...mediaDetails?.width || null` (`0` is falsy). -/
def declaredWidth (p : WpPost) : Option Int :=
  match p.featuredImage with
  | some n =>
      match n.mediaDetails with
      | some md =>
          match md.width with
          | some w => if w = 0 then none else some w
          | none => none
      | none => none
  | none => none

/-- Declared height after `...mediaDetails?.height || null` (`0` is falsy). -/
def declaredHeight (p : WpPost) : Option Int :=
  match p.featuredImage with
  | some n =>
      match n.mediaDetails with
      | some md =>
          match md.height with
          | some h => if h = 0 then none else some h
          | none => none
      | none => none
  | none => none

/-- The `transformWordPressPost` function of `src/src/lib/wordpress.js`:
resolve the featured image through `downloadImage`, strip markup from the
excerpt, rewrite the body markup, and assemble the Astro-compatible record.
`pubDate` keeps the raw date string (`new Date(wpPost.date)` is a parse the
rendering layer performs; no claim concerns it). -/
def transformWordPressPost (env : Env) (p : WpPost) : AstroPost :=
  let imageResult :=
    match heroUrlOf p with
    | some u => downloadImageRes env (some u)
    | none => (none, none)
  let excerptStr : Str :=
    match p.excerpt with
    | some e => if e.isEmpty then [] else trimStr (stripTags e)
    | none => []
  let newContent : Option Str :=
    match p.content with
    | some c => if c.isEmpty then some c else some (transformContent env c)
    | none => none
  { id := p.slug
    slug := p.slug
    data :=
      { title := p.title
        description := excerptStr
        pubDate := p.date
        heroImage := imageResult.1
        imageWidth := declaredWidth p
        imageHeight := declaredHeight p
        dominantColor := imageResult.2
        author := p.author
        categories := (p.categories).getD []
        tags := (p.tags).getD []
        wpId := p.id }
    content := newContent }

/-- The `fetchWordPressPosts` function (both scripts share this shape): the
posts list from a successful response, and the empty list when the request
fails in any way (the code catches and falls back to `[]`). -/
def fetchWordPressPosts (env : Env) : List WpPost :=
  match env.postsResponse with
  | some l => l
  | none => []

/-- The `getWordPressPosts` composition of `wordpress.js`. -/
def getWordPressPosts (env : Env) : List AstroPost :=
  (fetchWordPressPosts env).map (transformWordPressPost env)

/-- Observable outcome of `syncData`: the aggregate artifact written to
`src/data/posts.json` (`none` would mean the file was not written) and the
process exit code. -/
structure SyncDataOut where
  artifact : Option (List AstroPost)
  exitCode : Nat
deriving DecidableEq

/-- The `syncData` orchestrator of `src/scripts/sync-data.js`: fetch and
transform all posts, then unconditionally write them as the aggregate JSON
artifact and exit successfully.  There is no emptiness check; the pure
pipeline raises no exception, so the catch branch (exit 1) is dead here. -/
def syncData (env : Env) : SyncDataOut :=
  let posts := getWordPressPosts env
  { artifact := some posts, exitCode := 0 }

/-- Outcome of the image-sync orchestrator: early `process.exit` with a
code, or completion with the processed/skipped/failed tallies. -/
inductive SyncOutcome where
  | exited (code : Nat) : SyncOutcome
  | completed (processed skipped failed : Nat) : SyncOutcome
deriving DecidableEq

/-- Per-post step of `syncImages`: resolve the featured image (when
present) and classify the outcome — processed when the local path contains
`/images/`, skipped for a truthy pass-through path, failed otherwise — then
resolve every inline image of the body, discarding results. -/
def syncImagesStep (env : Env) (acc : (Nat × Nat × Nat) × FS) (post : WpPost) :
    (Nat × Nat × Nat) × FS :=
  let tally := acc.1
  let st := acc.2
  let afterHero : (Nat × Nat × Nat) × FS :=
    match heroUrlOf post with
    | some hero =>
      let r := downloadAndConvertImage env st (some hero)
      match r.1.1 with
      | some lp =>
          if lp.isEmpty then ((tally.1, tally.2.1, tally.2.2 + 1), r.2)
          else if containsSub imagesWeb lp then ((tally.1 + 1, tally.2.1, tally.2.2), r.2)
          else ((tally.1, tally.2.1 + 1, tally.2.2), r.2)
      | none => ((tally.1, tally.2.1, tally.2.2 + 1), r.2)
    | none => (tally, st)
  match post.content with
  | some c =>
      if c.isEmpty then afterHero
      else
        (afterHero.1,
          (srcMatches c).foldl
            (fun stAcc m => (downloadAndConvertImage env stAcc (some m.2)).2) afterHero.2)
  | none => afterHero

/-- The `syncImages` orchestrator of the image-sync script: abort with exit
code 1 when the fetch yields zero posts (before any filesystem write),
otherwise process every post sequentially and report tallies. -/
def syncImages (env : Env) (st : FS) : SyncOutcome × FS :=
  let posts := fetchWordPressPosts env
  if posts.isEmpty then (SyncOutcome.exited 1, st)
  else
    let r := posts.foldl (syncImagesStep env) ((0, 0, 0), st)
    (SyncOutcome.completed r.1.1 r.1.2.1 r.1.2.2, r.2)

/-- No inline-image match of the body markup points at the private origin
(the NormalizedRecord invariant of the spec, stated on a string). -/
def noLocalSrc (s : Str) : Bool := (srcMatches s).all (fun m => ¬ isLocalUrl m.2)

/-! Helper lemmas about the string scanners. -/

theorem isPrefixCI_length {p s : Str} (h : isPrefixCI p s = true) : p.length ≤ s.length := by
  induction p generalizing s with
  | nil => simp
  | cons c cs ih =>
    cases s with
    | nil => simp [isPrefixCI] at h
    | cons d ds =>
      simp only [isPrefixCI, Bool.and_eq_true] at h
      simpa [Nat.succ_le_succ_iff] using ih h.2

theorem isPrefixCI_self_append (p s : Str) : isPrefixCI p (p ++ s) = true := by
  induction p with
  | nil => simp [isPrefixCI]
  | cons c cs ih => simp [isPrefixCI, ih]

theorem splitAtChar_eq {q : Char} {s a b : Str} (h : splitAtChar q s = some (a, b)) :
    s = a ++ q :: b := by
  induction s generalizing a b with
  | nil => simp [splitAtChar] at h
  | cons c rest ih =>
    by_cases hc : c = q
    · subst hc
      simp [splitAtChar] at h
      rw [h.1, ← h.2]
      simp
    · simp only [splitAtChar, if_neg hc, Option.map_eq_some'] at h
      obtain ⟨pr, hpr, heq⟩ := h
      have := ih (a := pr.1) (b := pr.2) (by rw [hpr])
      cases heq
      simp [this]

theorem splitAtChar_append {q : Char} {u : Str} (h : ∀ c ∈ u, c ≠ q) (rest : Str) :
    splitAtChar q (u ++ q :: rest) = some (u, rest) := by
  induction u with
  | nil => simp [splitAtChar]
  | cons c cs ih =>
    have hc : c ≠ q := h c (by simp)
    simp [splitAtChar, hc, ih (fun x hx => h x (by simp [hx]))]

theorem isPrefixOf_append (t s : Str) : t.isPrefixOf (t ++ s) = true := by
  rw [List.isPrefixOf_iff_prefix]
  exact ⟨s, rfl⟩

theorem expandDollar_of_no_dollar (matched before after : Str) {r : Str}
    (h : '$' ∉ r) : expandDollar matched before after r = r := by
  induction r with
  | nil => rfl
  | cons c cs ih =>
    have hc : c ≠ '$' := fun he => h (he ▸ List.mem_cons_self c cs)
    have ihh := ih (fun hm => h (List.mem_cons_of_mem c hm))
    show expandDollar matched before after (c :: cs) = c :: cs
    unfold expandDollar
    rw [if_neg hc, ihh]

theorem findSub_found {t : Str} :
    ∀ {s : Str} {i : Nat}, findSub t s = some i → t.isPrefixOf (s.drop i) = true := by
  intro s
  induction s with
  | nil =>
    intro i h
    unfold findSub at h
    split at h
    case isTrue he =>
      injection h with h'
      subst h'
      simpa using he
    case isFalse => exact Option.noConfusion h
  | cons c rest ih =>
    intro i h
    unfold findSub at h
    split at h
    case isTrue hp =>
      injection h with h'
      subst h'
      simpa using hp
    case isFalse hp =>
      cases hf : findSub t rest with
      | none => rw [hf] at h; exact Option.noConfusion h
      | some j =>
        rw [hf] at h
        injection h with h'
        subst h'
        simpa using ih hf

theorem findSub_append {t b : Str} : ∀ {a : Str},
    (∀ i < a.length, t.isPrefixOf ((a ++ t ++ b).drop i) = false) →
    findSub t (a ++ t ++ b) = some a.length := by
  intro a
  induction a with
  | nil =>
    intro _
    cases t with
    | nil =>
      cases b with
      | nil => rfl
      | cons d ds =>
        show findSub [] (d :: ds) = some 0
        unfold findSub
        rw [if_pos (by simp [List.isPrefixOf])]
    | cons c t' =>
      show findSub (c :: t') (c :: (t' ++ b)) = some 0
      unfold findSub
      rw [if_pos (show (c :: t').isPrefixOf (c :: (t' ++ b)) = true from
        isPrefixOf_append (c :: t') b)]
  | cons c a' ih =>
    intro h
    have h0 : t.isPrefixOf (c :: (a' ++ t ++ b)) = false := by
      have := h 0 (by simp)
      simpa using this
    have ihh := ih (fun i hi => by
      have := h (i + 1) (by simp; omega)
      simpa using this)
    show findSub t (c :: (a' ++ t ++ b)) = some (a'.length + 1)
    unfold findSub
    rw [if_neg (by intro hc; rw [h0] at hc; exact Bool.noConfusion hc), ihh]
    rfl

theorem replaceFirst_self {t : Str} (s : Str) (hd : '$' ∉ t) : replaceFirst s t t = s := by
  unfold replaceFirst
  cases hf : findSub t s with
  | none => rfl
  | some i =>
    show s.take i ++ expandDollar t (s.take i) (s.drop (i + t.length)) t ++
        s.drop (i + t.length) = s
    rw [expandDollar_of_no_dollar _ _ _ hd]
    obtain ⟨u, hu⟩ := List.isPrefixOf_iff_prefix.mp (findSub_found hf)
    have hdrop : s.drop (i + t.length) = u := by
      rw [← List.drop_drop, ← hu, List.drop_left]
    rw [hdrop]
    conv_rhs => rw [← List.take_append_drop i s, ← hu]
    simp

theorem replaceFirst_append {a t b : Str} (r : Str) (_hne : t ≠ []) (hd : '$' ∉ r)
    (h : ∀ i < a.length, t.isPrefixOf ((a ++ t ++ b).drop i) = false) :
    replaceFirst (a ++ t ++ b) t r = a ++ r ++ b := by
  unfold replaceFirst
  rw [findSub_append h]
  show (a ++ t ++ b).take a.length ++
      expandDollar t ((a ++ t ++ b).take a.length)
        ((a ++ t ++ b).drop (a.length + t.length)) r ++
      (a ++ t ++ b).drop (a.length + t.length) = a ++ r ++ b
  rw [expandDollar_of_no_dollar _ _ _ hd]
  have h1 : (a ++ t ++ b).take a.length = a := by
    rw [List.append_assoc, List.take_left]
  have h2 : (a ++ t ++ b).drop (a.length + t.length) = b := by
    rw [← List.length_append, List.drop_left]
  rw [h1, h2]

theorem srcMatchAt_some_shape {s f u r : Str} (h : srcMatchAt s = some (f, u, r)) :
    s.drop 5 = u ++ '"' :: r ∧ 5 ≤ s.length := by
  unfold srcMatchAt at h
  split at h
  case isTrue hp =>
    split at h
    case h_1 pr u1 r1 heq =>
      split at h
      case isTrue hc =>
        injection h with h'
        simp only [Prod.mk.injEq] at h'
        obtain ⟨h1, h2, h3⟩ := h'
        subst h2
        subst h3
        exact ⟨splitAtChar_eq heq, isPrefixCI_length hp⟩
      case isFalse hc => exact absurd h (by simp)
    case h_2 heq => exact absurd h (by simp)
  case isFalse hp => exact absurd h (by simp)

theorem srcMatchAt_rest_length {s f u r : Str} (h : srcMatchAt s = some (f, u, r)) :
    r.length < s.length := by
  obtain ⟨hsplit, h5⟩ := srcMatchAt_some_shape h
  have hlen : (s.drop 5).length = u.length + 1 + r.length := by
    rw [hsplit]; simp; omega
  have hdl : (s.drop 5).length = s.length - 5 := by simp
  omega

theorem srcMatchesGo_fuel :
    ∀ (fuel fuel' : Nat) (s : Str), s.length ≤ fuel → s.length ≤ fuel' →
      srcMatchesGo fuel s = srcMatchesGo fuel' s := by
  intro fuel
  induction fuel with
  | zero =>
    intro fuel' s hs _
    have : s = [] := List.length_eq_zero.mp (Nat.le_zero.mp hs)
    subst this
    cases fuel' <;> simp [srcMatchesGo]
  | succ n ih =>
    intro fuel' s hs hs'
    cases s with
    | nil => cases fuel' <;> simp [srcMatchesGo]
    | cons c rest =>
      cases fuel' with
      | zero => simp at hs'
      | succ m =>
        simp only [srcMatchesGo]
        cases heq : srcMatchAt (c :: rest) with
        | none =>
          exact ih m rest (by simp at hs; omega) (by simp at hs'; omega)
        | some trip =>
          obtain ⟨f, u, after⟩ := trip
          have hlt := srcMatchAt_rest_length heq
          simp only [List.length_cons] at hlt hs hs'
          show (f, u) :: srcMatchesGo n after = (f, u) :: srcMatchesGo m after
          rw [ih m after (by omega) (by omega)]

theorem srcMatches_cons_none {c : Char} {rest : Str}
    (h : srcMatchAt (c :: rest) = none) :
    srcMatches (c :: rest) = srcMatches rest := by
  show srcMatchesGo (rest.length + 1) (c :: rest) = _
  simp only [srcMatchesGo, h]
  rfl

theorem srcMatches_cons_some {c : Char} {rest f u after : Str}
    (h : srcMatchAt (c :: rest) = some (f, u, after)) :
    srcMatches (c :: rest) = (f, u) :: srcMatches after := by
  have hlt := srcMatchAt_rest_length h
  simp only [List.length_cons] at hlt
  show srcMatchesGo (rest.length + 1) (c :: rest) = _
  simp only [srcMatchesGo, h]
  rw [srcMatchesGo_fuel rest.length after.length after (by omega) (by omega)]
  rfl

theorem srcMatches_of_no_match {s : Str}
    (h : ∀ i < s.length, srcMatchAt (s.drop i) = none) :
    srcMatches s = [] := by
  induction s with
  | nil => rfl
  | cons c rest ih =>
    rw [srcMatches_cons_none (by simpa using h 0 (by simp))]
    exact ih (fun i hi => by
      have := h (i + 1) (by simp; omega)
      simpa using this)

theorem srcMatches_append_none {a b : Str}
    (h : ∀ i < a.length, srcMatchAt ((a ++ b).drop i) = none) :
    srcMatches (a ++ b) = srcMatches b := by
  induction a with
  | nil => simp
  | cons c a' ih =>
    have h0 : srcMatchAt (c :: (a' ++ b)) = none := by simpa using h 0 (by simp)
    show srcMatches (c :: (a' ++ b)) = srcMatches b
    rw [srcMatches_cons_none h0]
    exact ih (fun i hi => by
      have := h (i + 1) (by simp; omega)
      simpa using this)

theorem srcAttrOf_length (u : Str) : (srcAttrOf u).length = u.length + 6 := by
  simp [srcAttrOf, srcToken, strOf]

theorem srcMatchAt_planted {u : Str} (rest : Str) (hq : ∀ c ∈ u, c ≠ '"')
    (hu : isHttpUrl u = true) (he : hasRasterExt u = true) :
    srcMatchAt (srcAttrOf u ++ rest) = some (srcAttrOf u, u, rest) := by
  have h1 : srcAttrOf u ++ rest = srcToken ++ (u ++ '"' :: rest) := by
    simp [srcAttrOf]
  have hpre : isPrefixCI srcToken (srcAttrOf u ++ rest) = true := by
    rw [h1]; exact isPrefixCI_self_append _ _
  have hdrop : (srcAttrOf u ++ rest).drop 5 = u ++ '"' :: rest := by
    rw [h1]
    have hl : srcToken.length = 5 := rfl
    rw [← hl, List.drop_left]
  have htake : (srcAttrOf u ++ rest).take (u.length + 6) = srcAttrOf u := by
    rw [← srcAttrOf_length u]
    exact List.take_left _ _
  unfold srcMatchAt
  rw [if_pos hpre, hdrop, splitAtChar_append hq rest]
  show (if (isHttpUrl u && hasRasterExt u) = true then
      some ((srcAttrOf u ++ rest).take (u.length + 6), u, rest) else none) =
    some (srcAttrOf u, u, rest)
  rw [if_pos (by simp [hu, he]), htake]

theorem stripMatchAt_rest_length {name s rest : Str}
    (h : stripMatchAt name s = some rest) : rest.length < s.length := by
  unfold stripMatchAt at h
  split at h
  case isTrue hp =>
    split at h
    case h_1 pr b1 r1 heq =>
      injection h with h'
      subst h'
      have hsplit := splitAtChar_eq heq
      have hws : (s.takeWhile isSpaceChar).length ≤ s.length :=
        (List.takeWhile_prefix isSpaceChar).length_le
      have hpl := isPrefixCI_length hp
      have hnl : (name ++ strOf ("=\"")).length = name.length + 2 := by simp [strOf]
      have htl : (s.drop (s.takeWhile isSpaceChar).length).length =
          s.length - (s.takeWhile isSpaceChar).length := by simp
      have hdl :
          ((s.drop (s.takeWhile isSpaceChar).length).drop (name.length + 2)).length =
          (s.drop (s.takeWhile isSpaceChar).length).length - (name.length + 2) := by
        simp
        omega
      rw [hsplit] at hdl
      simp at hdl
      omega
    case h_2 heq => exact absurd h (by simp)
  case isFalse hp => exact absurd h (by simp)

theorem stripAttrGo_fuel (name : Str) :
    ∀ (fuel fuel' : Nat) (s : Str), s.length ≤ fuel → s.length ≤ fuel' →
      stripAttrGo name fuel s = stripAttrGo name fuel' s := by
  intro fuel
  induction fuel with
  | zero =>
    intro fuel' s hs _
    have : s = [] := List.length_eq_zero.mp (Nat.le_zero.mp hs)
    subst this
    cases fuel' <;> simp [stripAttrGo]
  | succ n ih =>
    intro fuel' s hs hs'
    cases s with
    | nil => cases fuel' <;> simp [stripAttrGo]
    | cons c rest =>
      cases fuel' with
      | zero => simp at hs'
      | succ m =>
        simp only [stripAttrGo]
        cases heq : stripMatchAt name (c :: rest) with
        | none =>
          show c :: stripAttrGo name n rest = c :: stripAttrGo name m rest
          rw [ih m rest (by simp at hs; omega) (by simp at hs'; omega)]
        | some after =>
          have hlt := stripMatchAt_rest_length heq
          simp only [List.length_cons] at hlt hs hs'
          show stripAttrGo name n after = stripAttrGo name m after
          exact ih m after (by omega) (by omega)

theorem stripAttr_cons_none {name : Str} {c : Char} {rest : Str}
    (h : stripMatchAt name (c :: rest) = none) :
    stripAttr name (c :: rest) = c :: stripAttr name rest := by
  show stripAttrGo name (rest.length + 1) (c :: rest) = _
  simp only [stripAttrGo, h]
  rfl

theorem stripAttr_cons_some {name : Str} {c : Char} {rest after : Str}
    (h : stripMatchAt name (c :: rest) = some after) :
    stripAttr name (c :: rest) = stripAttr name after := by
  have hlt := stripMatchAt_rest_length h
  simp only [List.length_cons] at hlt
  show stripAttrGo name (rest.length + 1) (c :: rest) = _
  simp only [stripAttrGo, h]
  exact stripAttrGo_fuel name rest.length after.length after (by omega) (by omega)

theorem stripAttr_of_no_match {name s : Str}
    (h : ∀ i < s.length, stripMatchAt name (s.drop i) = none) :
    stripAttr name s = s := by
  induction s with
  | nil => rfl
  | cons c rest ih =>
    rw [stripAttr_cons_none (by simpa using h 0 (by simp))]
    rw [ih (fun i hi => by
      have := h (i + 1) (by simp; omega)
      simpa using this)]

theorem stripAttr_append_none {name a b : Str}
    (h : ∀ i < a.length, stripMatchAt name ((a ++ b).drop i) = none) :
    stripAttr name (a ++ b) = a ++ stripAttr name b := by
  induction a with
  | nil => simp
  | cons c a' ih =>
    have h0 : stripMatchAt name (c :: (a' ++ b)) = none := by simpa using h 0 (by simp)
    show stripAttr name (c :: (a' ++ b)) = c :: (a' ++ stripAttr name b)
    rw [stripAttr_cons_none h0]
    rw [ih (fun i hi => by
      have := h (i + 1) (by simp; omega)
      simpa using this)]

theorem stripMatchAt_planted {name v B : Str} {nc : Char} {ncs : Str}
    (hname : name = nc :: ncs) (hnc : isSpaceChar nc = false)
    (hv : ∀ c ∈ v, c ≠ '"') :
    stripMatchAt name (' ' :: (name ++ '=' :: '"' :: (v ++ '"' :: B))) = some B := by
  have hsp : isSpaceChar ' ' = true := by decide
  have htw : (' ' :: (name ++ '=' :: '"' :: (v ++ '"' :: B))).takeWhile isSpaceChar
      = [' '] := by
    rw [hname]
    simp [List.takeWhile_cons, hsp, hnc]
  have hshape : name ++ '=' :: '"' :: (v ++ '"' :: B) =
      (name ++ strOf ("=\"")) ++ (v ++ '"' :: B) := by
    simp [strOf]
  have hpre : isPrefixCI (name ++ strOf ("=\"")) (name ++ '=' :: '"' :: (v ++ '"' :: B))
      = true := by
    rw [hshape]; exact isPrefixCI_self_append _ _
  have hnl : (name ++ strOf ("=\"")).length = name.length + 2 := by simp [strOf]
  have hdrop : (name ++ '=' :: '"' :: (v ++ '"' :: B)).drop (name.length + 2) =
      v ++ '"' :: B := by
    rw [hshape, ← hnl, List.drop_left]
  unfold stripMatchAt
  rw [htw]
  simp only [List.length_cons, List.length_nil, List.drop_succ_cons, List.drop_zero]
  rw [if_pos hpre, hdrop, splitAtChar_append hv B]

/-! Concrete environments and records used by witnesses and counterexamples. -/

/-- A post with every optional nested field absent. -/
def samplePost : WpPost :=
  { id := strOf ("cG9zdDox")
    slug := strOf ("apollo")
    title := strOf ("Apollo")
    content := none
    excerpt := none
    date := strOf ("2024-01-01T00:00:00")
    featuredImage := none
    author := none
    categories := none
    tags := none }

/-- A fully healthy world: every fetch succeeds, transcoding works, sharp
reports the dominant RGB `(7, 160, 255)`, vibrant finds a swatch, and the
content API returns one post. -/
def envOk : Env :=
  { fetchOk := fun _ => true
    transcodeOk := true
    statsColor := fun _ => some (7, 160, 255)
    vibrantColor := fun _ => some (strOf ("#aabbcc"))
    postsResponse := some [samplePost] }

/-- The healthy world with a broken `cwebp`. -/
def envNoTranscode : Env := { envOk with transcodeOk := false }

/-- An unreachable world: every request fails and the content query errors. -/
def envUnreachable : Env :=
  { fetchOk := fun _ => false
    transcodeOk := false
    statsColor := fun _ => none
    vibrantColor := fun _ => none
    postsResponse := none }

/-- JS falsiness/eligibility of an optional URL for the private-origin gate. -/
def isLocalOpt : Option Str → Bool
  | none => false
  | some s => isLocalUrl s

/-- C1 (counterexample): with the content source unreachable the data-sync
orchestrator still writes the aggregate artifact — as an empty list — and
exits 0, contradicting the claim that a zero-record query aborts the run
with a non-zero exit and without writing the artifact. -/
theorem syncData_empty_fetch_still_writes :
    (syncData envUnreachable).artifact = some [] ∧
      (syncData envUnreachable).exitCode = 0 :=
  ⟨rfl, rfl⟩

/-- C1 (amended): when the content query returns zero records, the
image-sync orchestrator (`syncImages`) exits with code 1 before touching
the filesystem, while the data-sync orchestrator (`syncData`) — the one
that owns the aggregate artifact — does not abort: it writes the artifact
as an empty list and exits 0. -/
theorem orchestrators_on_empty_fetch (env : Env) (st : FS)
    (h : fetchWordPressPosts env = []) :
    syncImages env st = (SyncOutcome.exited 1, st) ∧
      syncData env = { artifact := some [], exitCode := 0 } := by
  constructor
  · simp [syncImages, h]
  · simp [syncData, getWordPressPosts, h]

/-- C1 (witness): the amended claim at the unreachable environment. -/
theorem orchestrators_on_empty_fetch_witness :
    fetchWordPressPosts envUnreachable = [] ∧
      (syncImages envUnreachable FS.empty = (SyncOutcome.exited 1, FS.empty) ∧
        syncData envUnreachable = { artifact := some [], exitCode := 0 }) :=
  ⟨rfl, orchestrators_on_empty_fetch envUnreachable FS.empty rfl⟩

/-- C4 (confirmed): for an absent URL or one that does not contain
`.local`/`localhost`, both resolvers return the value unchanged with a null
color and leave the filesystem state untouched — no file writes, no
directory creation, no fetch or transcode attempts. -/
theorem passthrough_no_side_effects (env : Env) (st : FS) (u : Option Str)
    (h : isLocalOpt u = false) :
    downloadImage env st u = ((u, none), st) ∧
      downloadAndConvertImage env st u = ((u, none), st) := by
  cases u with
  | none => exact ⟨rfl, rfl⟩
  | some s =>
    have hs : isLocalUrl s = false := by simpa [isLocalOpt] using h
    constructor
    · simp [downloadImage, hs]
    · simp [downloadAndConvertImage, hs]

/-- C4 (witness): a public URL passes through both resolvers unchanged. -/
theorem passthrough_no_side_effects_witness :
    isLocalOpt (some (strOf ("https://example.com/a.jpg"))) = false ∧
      (downloadImage envOk FS.empty (some (strOf ("https://example.com/a.jpg"))) =
          ((some (strOf ("https://example.com/a.jpg")), none), FS.empty) ∧
        downloadAndConvertImage envOk FS.empty (some (strOf ("https://example.com/a.jpg"))) =
          ((some (strOf ("https://example.com/a.jpg")), none), FS.empty)) :=
  ⟨by decide, passthrough_no_side_effects envOk FS.empty _ (by decide)⟩

set_option maxRecDepth 8192 in
/-- Every RGB channel below 256 renders as exactly two lowercase
hexadecimal digits after padding. -/
theorem pad2_toHex16_byte : ∀ n < 256, (pad2 (toHex16 n)).length = 2 ∧
    (pad2 (toHex16 n)).all isLowerHexDigit = true := by decide

/-- C9 (confirmed): any non-null color produced by the Sharp-based color
extractor is `#` followed by exactly six lowercase hexadecimal digits, two
zero-padded digits per RGB channel. -/
theorem color_format (env : Env) (path : Str) (r g b : Nat)
    (hs : env.statsColor path = some (r, g, b))
    (hr : r < 256) (hg : g < 256) (hb : b < 256) :
    ∃ d1 d2 d3 : Str, extractDominantColor env path = some ('#' :: (d1 ++ d2 ++ d3)) ∧
      d1.length = 2 ∧ d2.length = 2 ∧ d3.length = 2 ∧
      (d1 ++ d2 ++ d3).all isLowerHexDigit = true := by
  refine ⟨pad2 (toHex16 r), pad2 (toHex16 g), pad2 (toHex16 b), ?_, ?_, ?_, ?_, ?_⟩
  · simp [extractDominantColor, hs, rgbHex]
  · exact (pad2_toHex16_byte r hr).1
  · exact (pad2_toHex16_byte g hg).1
  · exact (pad2_toHex16_byte b hb).1
  · simp [List.all_append, (pad2_toHex16_byte r hr).2, (pad2_toHex16_byte g hg).2,
      (pad2_toHex16_byte b hb).2]

/-- C9 (witness): the color format at the healthy environment's RGB. -/
theorem color_format_witness :
    envOk.statsColor (strOf ("public/images/rocket.webp")) = some (7, 160, 255) ∧
      (∃ d1 d2 d3 : Str,
        extractDominantColor envOk (strOf ("public/images/rocket.webp")) =
            some ('#' :: (d1 ++ d2 ++ d3)) ∧
          d1.length = 2 ∧ d2.length = 2 ∧ d3.length = 2 ∧
          (d1 ++ d2 ++ d3).all isLowerHexDigit = true) :=
  ⟨rfl, color_format envOk _ 7 160 255 rfl (by decide) (by decide) (by decide)⟩

/-- C10 (confirmed): `transformWordPressPost` is total over missing optional
nested fields and degrades them to fixed neutral defaults — absent excerpt
gives an empty description, absent featured image gives null hero path,
dimensions, and color, absent taxonomies give empty lists — and the output
`id` and `slug` both equal the input slug. -/
theorem transform_defaults (env : Env) (p : WpPost) :
    (p.excerpt = none → (transformWordPressPost env p).data.description = []) ∧
    (p.featuredImage = none →
      (transformWordPressPost env p).data.heroImage = none ∧
      (transformWordPressPost env p).data.imageWidth = none ∧
      (transformWordPressPost env p).data.imageHeight = none ∧
      (transformWordPressPost env p).data.dominantColor = none) ∧
    (p.categories = none → (transformWordPressPost env p).data.categories = []) ∧
    (p.tags = none → (transformWordPressPost env p).data.tags = []) ∧
    (transformWordPressPost env p).id = p.slug ∧
    (transformWordPressPost env p).slug = p.slug := by
  refine ⟨?_, ?_, ?_, ?_, rfl, rfl⟩
  · intro h
    simp [transformWordPressPost, h]
  · intro h
    refine ⟨?_, ?_, ?_, ?_⟩ <;>
      simp [transformWordPressPost, heroUrlOf, declaredWidth, declaredHeight, h]
  · intro h
    simp [transformWordPressPost, h]
  · intro h
    simp [transformWordPressPost, h]

/-- C10 (witness): the defaults at a post with every optional field absent. -/
theorem transform_defaults_witness :
    (transformWordPressPost envOk samplePost).data.description = [] ∧
      (transformWordPressPost envOk samplePost).data.heroImage = none ∧
      (transformWordPressPost envOk samplePost).data.imageWidth = none ∧
      (transformWordPressPost envOk samplePost).data.imageHeight = none ∧
      (transformWordPressPost envOk samplePost).data.dominantColor = none ∧
      (transformWordPressPost envOk samplePost).data.categories = [] ∧
      (transformWordPressPost envOk samplePost).data.tags = [] ∧
      (transformWordPressPost envOk samplePost).id = samplePost.slug ∧
      (transformWordPressPost envOk samplePost).slug = samplePost.slug := by
  have h := transform_defaults envOk samplePost
  exact ⟨h.1 rfl, (h.2.1 rfl).1, (h.2.1 rfl).2.1, (h.2.1 rfl).2.2.1, (h.2.1 rfl).2.2.2,
    h.2.2.1 rfl, h.2.2.2.1 rfl, h.2.2.2.2.1, h.2.2.2.2.2⟩

theorem joinPath_inj {d x y : Str} (h : joinPath d x = joinPath d y) : x = y := by
  unfold joinPath at h
  have h2 := List.append_cancel_left h
  simpa using h2

theorem joinPath_pub_ne_dist (x y : Str) :
    joinPath pubImagesDir x ≠ joinPath distImagesDir y := by
  intro h
  have h1 : (joinPath pubImagesDir x).head? = some 'p' := rfl
  rw [h] at h1
  have h2 : (joinPath distImagesDir y).head? = some 'd' := rfl
  rw [h2] at h1
  exact absurd h1 (by decide)

/-- A concrete eligible URL whose filename the pipeline does not rewrite. -/
def webpUrl : Str := strOf ("http://spacezine.local/uploads/a.webp")

/-- C2 (counterexample): for the eligible `.webp` URL
`http://spacezine.local/uploads/a.webp` the derived cached name equals the
raw name, so the post-transcode cleanup of the raw downloads deletes the
just-written cache file itself; a second resolve then misses the cache and
fetches and transcodes again — two fetches and two transcodes in total,
against the claim's at-most-once guarantee for every eligible URL. -/
theorem resolve_refetches_webp :
    isLocalUrl webpUrl = true ∧
      envOk.fetchOk webpUrl = true ∧
      envOk.transcodeOk = true ∧
      (downloadAndConvertImage envOk
          (downloadAndConvertImage envOk FS.empty (some webpUrl)).2
          (some webpUrl)).2.fetches = 2 ∧
      (downloadAndConvertImage envOk
          (downloadAndConvertImage envOk FS.empty (some webpUrl)).2
          (some webpUrl)).2.transcodes = 2 := by
  decide

/-- C2 (amended): resolving the same eligible URL twice fetches and
transcodes at most once in total provided the derived WebP name differs
from the raw name (a `jpg`/`jpeg`/`png` extension), so that the deleted
raw temporaries are distinct from the cached WebP: under a fresh cache
with fetch and transcode succeeding, the first call performs exactly one
fetch and one transcode, and the second call finds the cached WebP,
performs neither, and returns the same local path and the same color.
For a URL whose filename is not rewritten (`gif`/`webp`) the cleanup
deletes the cache file and the second call repeats both operations (see
the counterexample). -/
theorem resolve_idempotent (env : Env) (st : FS) (url fileName : Str)
    (hloc : isLocalUrl url = true)
    (hbase : urlBasename url = some fileName)
    (hren : toWebpName fileName ≠ fileName)
    (hfetch : env.fetchOk url = true)
    (htrans : env.transcodeOk = true)
    (hfresh : joinPath pubImagesDir (toWebpName fileName) ∉ st.files) :
    (downloadAndConvertImage env (downloadAndConvertImage env st (some url)).2 (some url)).1 =
        (downloadAndConvertImage env st (some url)).1 ∧
      (downloadAndConvertImage env st (some url)).2.fetches = st.fetches + 1 ∧
      (downloadAndConvertImage env st (some url)).2.transcodes = st.transcodes + 1 ∧
      (downloadAndConvertImage env
          (downloadAndConvertImage env st (some url)).2 (some url)).2.fetches =
        (downloadAndConvertImage env st (some url)).2.fetches ∧
      (downloadAndConvertImage env
          (downloadAndConvertImage env st (some url)).2 (some url)).2.transcodes =
        (downloadAndConvertImage env st (some url)).2.transcodes := by
  have hne1 : joinPath pubImagesDir (toWebpName fileName) ≠ joinPath pubImagesDir fileName :=
    fun h => hren (joinPath_inj h)
  have hne2 : joinPath pubImagesDir (toWebpName fileName) ≠ joinPath distImagesDir fileName :=
    joinPath_pub_ne_dist _ _
  have h1 : downloadAndConvertImage env st (some url) =
      ((some (imagesWeb ++ toWebpName fileName),
        extractDominantColor env (joinPath pubImagesDir (toWebpName fileName))),
       { st with
          fetches := st.fetches + 1
          transcodes := st.transcodes + 1
          dirs := ((st.dirs.insert pubImagesDir).insert distImagesDir).insert metaDirPath
          files :=
            (((((st.files.insert (joinPath pubImagesDir fileName)).insert
                  (joinPath distImagesDir fileName)).insert
                  (joinPath pubImagesDir (toWebpName fileName))).insert
                  (joinPath distImagesDir (toWebpName fileName))).erase
                  (joinPath pubImagesDir fileName)).erase (joinPath distImagesDir fileName)
              |>.insert
                (joinPath metaDirPath (toWebpName fileName ++ strOf (".json"))) }) := by
    simp [downloadAndConvertImage, hloc, hbase, hfetch, htrans, hfresh]
  have hmem : joinPath pubImagesDir (toWebpName fileName) ∈
      (downloadAndConvertImage env st (some url)).2.files := by
    rw [h1]
    simp [List.mem_insert_iff, List.mem_erase_of_ne hne1, List.mem_erase_of_ne hne2]
  cases hcol :
      extractDominantColor env (joinPath pubImagesDir (toWebpName fileName)) with
  | none =>
    refine ⟨?_, ?_, ?_, ?_, ?_⟩ <;>
      rw [h1] at hmem ⊢ <;>
      simp [downloadAndConvertImage, hloc, hbase, hmem, hcol]
  | some col =>
    refine ⟨?_, ?_, ?_, ?_, ?_⟩ <;>
      rw [h1] at hmem ⊢ <;>
      simp [downloadAndConvertImage, hloc, hbase, hmem, hcol]

/-- A concrete eligible remote asset URL. -/
def rocketUrl : Str := strOf ("http://spacezine.local/uploads/rocket.jpg")

/-- C2 (witness): the idempotence scenario at a concrete URL and the empty
filesystem. -/
theorem resolve_idempotent_witness :
    isLocalUrl rocketUrl = true ∧
      urlBasename rocketUrl = some (strOf ("rocket.jpg")) ∧
      toWebpName (strOf ("rocket.jpg")) ≠ strOf ("rocket.jpg") ∧
      envOk.fetchOk rocketUrl = true ∧
      envOk.transcodeOk = true ∧
      ((downloadAndConvertImage envOk
            (downloadAndConvertImage envOk FS.empty (some rocketUrl)).2 (some rocketUrl)).1 =
          (downloadAndConvertImage envOk FS.empty (some rocketUrl)).1 ∧
        (downloadAndConvertImage envOk FS.empty (some rocketUrl)).2.fetches = 0 + 1 ∧
        (downloadAndConvertImage envOk FS.empty (some rocketUrl)).2.transcodes = 0 + 1 ∧
        (downloadAndConvertImage envOk
            (downloadAndConvertImage envOk FS.empty (some rocketUrl)).2 (some rocketUrl)).2.fetches =
          (downloadAndConvertImage envOk FS.empty (some rocketUrl)).2.fetches ∧
        (downloadAndConvertImage envOk
            (downloadAndConvertImage envOk FS.empty (some rocketUrl)).2 (some rocketUrl)).2.transcodes =
          (downloadAndConvertImage envOk FS.empty (some rocketUrl)).2.transcodes) :=
  ⟨by decide, by decide, by decide, rfl, rfl,
    resolve_idempotent envOk FS.empty rocketUrl (strOf ("rocket.jpg"))
      (by decide) (by decide) (by decide) rfl rfl (by decide)⟩

/-- C8 (confirmed): when the download succeeds but the transcode fails, the
resolver still returns a non-null local path pointing at the original
(untranscoded) filename together with a null color, and the orchestrator
run completes with tallies instead of aborting. -/
theorem transcode_failure_degrades (env : Env) (st : FS) (url fileName : Str)
    (posts : List WpPost)
    (hloc : isLocalUrl url = true)
    (hbase : urlBasename url = some fileName)
    (hfetch : env.fetchOk url = true)
    (htfail : env.transcodeOk = false)
    (hfresh : joinPath pubImagesDir (toWebpName fileName) ∉ st.files)
    (hposts : env.postsResponse = some posts)
    (hne : posts ≠ []) :
    (downloadAndConvertImage env st (some url)).1 = (some (imagesWeb ++ fileName), none) ∧
      ∃ p s f st2, syncImages env st = (SyncOutcome.completed p s f, st2) := by
  constructor
  · simp [downloadAndConvertImage, hloc, hbase, hfetch, htfail, hfresh]
  · cases posts with
    | nil => exact absurd rfl hne
    | cons q qs =>
      have hrun : syncImages env st = (SyncOutcome.completed
          ((q :: qs).foldl (syncImagesStep env) ((0, 0, 0), st)).1.1
          ((q :: qs).foldl (syncImagesStep env) ((0, 0, 0), st)).1.2.1
          ((q :: qs).foldl (syncImagesStep env) ((0, 0, 0), st)).1.2.2,
          ((q :: qs).foldl (syncImagesStep env) ((0, 0, 0), st)).2) := by
        simp [syncImages, fetchWordPressPosts, hposts]
      exact ⟨_, _, _, _, hrun⟩

/-- C8 (witness): the degradation scenario at a concrete URL with a broken
transcoder and a one-post response. -/
theorem transcode_failure_degrades_witness :
    isLocalUrl rocketUrl = true ∧
      urlBasename rocketUrl = some (strOf ("rocket.jpg")) ∧
      envNoTranscode.fetchOk rocketUrl = true ∧
      envNoTranscode.transcodeOk = false ∧
      envNoTranscode.postsResponse = some [samplePost] ∧
      ([samplePost] : List WpPost) ≠ [] ∧
      ((downloadAndConvertImage envNoTranscode FS.empty (some rocketUrl)).1 =
          (some (imagesWeb ++ strOf ("rocket.jpg")), none) ∧
        ∃ p s f st2,
          syncImages envNoTranscode FS.empty = (SyncOutcome.completed p s f, st2)) :=
  ⟨by decide, by decide, rfl, rfl, rfl, by decide,
    transcode_failure_degrades envNoTranscode FS.empty rocketUrl (strOf ("rocket.jpg"))
      [samplePost] (by decide) (by decide) rfl rfl (by decide) rfl (by decide)⟩

theorem isPrefixCI_append_of_le {p a : Str} (b : Str) (h : p.length ≤ a.length) :
    isPrefixCI p (a ++ b) = isPrefixCI p a := by
  induction p generalizing a with
  | nil => simp [isPrefixCI]
  | cons c cs ih =>
    cases a with
    | nil => simp at h
    | cons d ds =>
      simp only [List.cons_append, isPrefixCI, List.append_eq]
      rw [ih (by simpa [Nat.succ_le_succ_iff] using h)]

theorem endsWithCI_append_of_le {pat suffix : Str} (stem : Str)
    (h : pat.length ≤ suffix.length) :
    endsWithCI pat (stem ++ suffix) = endsWithCI pat suffix := by
  unfold endsWithCI
  rw [List.reverse_append]
  rw [isPrefixCI_append_of_le _ (by simpa using h)]

theorem endsWithCI_ne_two {pat s : Str} {p1 p2 c1 c2 : Char} {pr sr : Str}
    (hp : pat.reverse = p1 :: p2 :: pr) (hs : s.reverse = c1 :: c2 :: sr)
    (h : ((p1.toLower == c1.toLower) && (p2.toLower == c2.toLower)) = false) :
    endsWithCI pat s = false := by
  unfold endsWithCI
  rw [hp, hs]
  simp only [isPrefixCI]
  rw [← Bool.and_assoc, h]
  simp

theorem takeWhile_all {p : Char → Bool} {l : Str} (h : ∀ x ∈ l, p x = true) :
    l.takeWhile p = l := by
  induction l with
  | nil => rfl
  | cons c cs ih =>
    simp [List.takeWhile_cons, h c (by simp), ih (fun x hx => h x (by simp [hx]))]

theorem takeWhile_append_all {p : Char → Bool} {a : Str} (b : Str)
    (h : ∀ x ∈ a, p x = true) :
    (a ++ b).takeWhile p = a ++ b.takeWhile p := by
  induction a with
  | nil => rfl
  | cons c cs ih =>
    simp [List.takeWhile_cons, h c (by simp), ih (fun x hx => h x (by simp [hx]))]

theorem afterLastSlash_append_of {g : Str} (a : Str) (hg : ∀ x ∈ g, x ≠ '/') :
    afterLastSlash ((a ++ ['/']) ++ g) = g := by
  unfold afterLastSlash
  rw [List.reverse_append, List.reverse_append]
  rw [takeWhile_append_all _ (fun x hx => by
    simpa using hg x (List.mem_reverse.mp hx))]
  simp [List.takeWhile_cons]

theorem dropWhile_cons_of_neg {p : Char → Bool} {c : Char} {l : Str} (h : p c = false) :
    (c :: l).dropWhile p = c :: l := by
  simp [List.dropWhile_cons, h]

theorem dropWhile_rev_append {p : Char → Bool} {g : Str} (b : Str) (hne : g ≠ [])
    (hg : ∀ x ∈ g, p x = false) :
    (g.reverse ++ b).dropWhile p = g.reverse ++ b := by
  cases hr : g.reverse with
  | nil =>
    exfalso
    apply hne
    have h1 := congrArg List.reverse hr
    simpa using h1
  | cons y ys =>
    have hy : y ∈ g := by
      have h1 : y ∈ g.reverse := by rw [hr]; exact List.mem_cons_self y ys
      exact List.mem_reverse.mp h1
    have hd : ((y :: ys : Str) ++ b).dropWhile p = (y :: ys) ++ b := by
      rw [List.cons_append, dropWhile_cons_of_neg (hg y hy)]
    exact hd

theorem splitSegs_sepfree {g : Str} (hg : ∀ x ∈ g, isSep x = false) :
    splitSegs g = [g] := by
  induction g with
  | nil => rfl
  | cons c cs ih =>
    have hc : isSep c = false := hg c (List.mem_cons_self c cs)
    have ihh := ih (fun x hx => hg x (List.mem_cons_of_mem c hx))
    show splitSegs (c :: cs) = [c :: cs]
    unfold splitSegs
    rw [if_neg (fun hcc => by rw [hc] at hcc; exact Bool.noConfusion hcc), ihh]

theorem splitSegs_cons (c : Char) (rest : Str) :
    splitSegs (c :: rest) =
      if isSep c then [] :: splitSegs rest
      else
        match splitSegs rest with
        | [] => [[c]]
        | s :: ss => (c :: s) :: ss := rfl

theorem splitSegs_append_sep {a : Str} (b : Str) (ha : ∀ x ∈ a, isSep x = false) :
    splitSegs (a ++ '/' :: b) = a :: splitSegs b := by
  induction a with
  | nil =>
    show splitSegs ('/' :: b) = [] :: splitSegs b
    rw [splitSegs_cons, if_pos (by decide)]
  | cons c cs ih =>
    have hc : isSep c = false := ha c (List.mem_cons_self c cs)
    have ihh := ih (fun x hx => ha x (List.mem_cons_of_mem c hx))
    show splitSegs (c :: (cs ++ '/' :: b)) = (c :: cs) :: splitSegs b
    rw [splitSegs_cons,
      if_neg (fun hcc => by rw [hc] at hcc; exact Bool.noConfusion hcc), ihh]

theorem encodeSeg_plain {g : Str} (hg : ∀ x ∈ g, needsPathEncoding x = false) :
    encodeSeg g = g := by
  induction g with
  | nil => rfl
  | cons c cs ih =>
    have hc : needsPathEncoding c = false := hg c (List.mem_cons_self c cs)
    have ihh := ih (fun x hx => hg x (List.mem_cons_of_mem c hx))
    show ((c :: cs).map encodePathChar).flatten = c :: cs
    rw [List.map_cons, List.flatten_cons]
    rw [show encodePathChar c = [c] from by
      unfold encodePathChar
      rw [if_neg (fun hcc => by rw [hc] at hcc; exact Bool.noConfusion hcc)]]
    rw [show (cs.map encodePathChar).flatten = cs from ihh]
    rfl

/-- C3 (counterexample): for the eligible URL
`http://spacezine.local/uploads/nebula.gif` the derived cached filename is
`nebula.gif` — a recognized raster extension that the pipeline does not
replace with `.webp`, contrary to the claim. -/
theorem cached_filename_gif_not_rewritten :
    (urlBasename (strOf ("http://spacezine.local/uploads/nebula.gif"))).map toWebpName =
        some (strOf ("nebula.gif")) ∧
      hasRasterExt (strOf ("nebula.gif")) = true ∧
      strOf ("nebula.gif") ≠ strOf ("nebula.webp") := by decide

/-- C3 (amended): for a nonempty final segment made of characters the URL
parser passes through untouched (nothing from the path percent-encode set
— controls, space, tab, newline, `"#<>?`, backtick, braces, non-ASCII —
and no `/` or `\` separator) that is not a dot segment, the deterministic
cached filename equals that segment, and the extension is replaced with
`.webp` exactly when it is `jpg`, `jpeg`, or `png` (case-insensitive);
`gif` and `webp` extensions are kept unchanged.  Outside that character
set the filename is the percent-encoded (or dot-resolved) form of the
segment, not the segment itself. -/
theorem cached_filename_amended (g stem : Str)
    (hne : g ≠ [])
    (hplain : g.all plainPathChar = true)
    (hdot1 : isSingleDotSeg g = false)
    (hdot2 : isDoubleDotSeg g = false) :
    urlBasename (strOf ("http://spacezine.local/uploads/") ++ g) = some g ∧
      (g = stem ++ strOf (".jpg") → toWebpName g = stem ++ strOf (".webp")) ∧
      (g = stem ++ strOf (".jpeg") → toWebpName g = stem ++ strOf (".webp")) ∧
      (g = stem ++ strOf (".png") → toWebpName g = stem ++ strOf (".webp")) ∧
      (g = stem ++ strOf (".gif") → toWebpName g = g) ∧
      (g = stem ++ strOf (".webp") → toWebpName g = g) := by
  refine ⟨?_, ?_, ?_, ?_, ?_, ?_⟩
  · have hxf : ∀ x ∈ g, needsPathEncoding x = false ∧ isSep x = false := by
      intro x hxg
      have hx := List.all_eq_true.mp hplain x hxg
      unfold plainPathChar at hx
      simp only [Bool.and_eq_true, Bool.not_eq_true'] at hx
      exact hx
    have hnoenc : ∀ x ∈ g, needsPathEncoding x = false := fun x hx => (hxf x hx).1
    have hnosep : ∀ x ∈ g, isSep x = false := fun x hx => (hxf x hx).2
    have hge33 : ∀ x ∈ g, 33 ≤ x.toNat ∧ x.toNat ≤ 126 ∧
        x ∉ ['"', '#', '<', '>', '?', Char.ofNat 96, Char.ofNat 123, Char.ofNat 125] := by
      intro x hx
      have h := hnoenc x hx
      unfold needsPathEncoding at h
      simp only [Bool.or_eq_false_iff, decide_eq_false_iff_not] at h
      obtain ⟨⟨ha, hb⟩, hc⟩ := h
      exact ⟨by omega, by omega, hc⟩
    have hqh : ∀ x ∈ g, x ≠ '?' ∧ x ≠ '#' := by
      intro x hx
      have h := (hge33 x hx).2.2
      simp only [List.mem_cons, List.not_mem_nil, or_false, not_or] at h
      exact ⟨h.2.2.2.2.1, h.2.1⟩
    have hsl : ∀ x ∈ g, x ≠ '/' := by
      intro x hx
      have h := hnosep x hx
      unfold isSep at h
      simp only [Bool.or_eq_false_iff, decide_eq_false_iff_not] at h
      exact h.1
    have hc0 : ∀ x ∈ g, isC0OrSpace x = false := by
      intro x hx
      have h := (hge33 x hx).1
      unfold isC0OrSpace
      simp only [decide_eq_false_iff_not]
      omega
    have htnl : ∀ x ∈ g, isTabOrNewline x = false := by
      intro x hx
      have h := (hge33 x hx).1
      unfold isTabOrNewline
      simp only [Bool.or_eq_false_iff, decide_eq_false_iff_not]
      omega
    have hcons : strOf ("http://spacezine.local/uploads/") ++ g =
        'h' :: (strOf ("ttp://spacezine.local/uploads/") ++ g) := rfl
    have hnorm : normalizeUrlInput (strOf ("http://spacezine.local/uploads/") ++ g) =
        strOf ("http://spacezine.local/uploads/") ++ g := by
      unfold normalizeUrlInput
      rw [hcons, dropWhile_cons_of_neg (by decide), ← hcons]
      rw [List.reverse_append]
      rw [dropWhile_rev_append _ hne hc0]
      rw [← List.reverse_append, List.reverse_reverse]
      apply List.filter_eq_self.mpr
      intro x hx
      rcases List.mem_append.mp hx with h | h
      · exact (by decide : ∀ y ∈ strOf ("http://spacezine.local/uploads/"),
          (!(isTabOrNewline y)) = true) x h
      · rw [htnl x h]
        rfl
    have hnotHttps : isPrefixCI (strOf ("https://"))
        (strOf ("http://spacezine.local/uploads/") ++ g) = false := by
      rw [isPrefixCI_append_of_le _ (by decide)]
      decide
    have hHttp : isPrefixCI (strOf ("http://"))
        (strOf ("http://spacezine.local/uploads/") ++ g) = true := by
      rw [isPrefixCI_append_of_le _ (by decide)]
      decide
    have hdrop7 : (strOf ("http://spacezine.local/uploads/") ++ g).drop 7 =
        strOf ("spacezine.local/uploads/") ++ g := by
      rw [List.drop_append_of_le_length (by decide)]
      rfl
    have hrest : (strOf ("spacezine.local/uploads/") ++ g).dropWhile isSep =
        strOf ("spacezine.local/uploads/") ++ g := by
      show ('s' :: (strOf ("pacezine.local/uploads/") ++ g)).dropWhile isSep =
        's' :: (strOf ("pacezine.local/uploads/") ++ g)
      rw [dropWhile_cons_of_neg (by decide)]
    have hsplit : strOf ("spacezine.local/uploads/") ++ g =
        strOf ("spacezine.local") ++ '/' :: (strOf ("uploads/") ++ g) := rfl
    have hauth : (strOf ("spacezine.local/uploads/") ++ g).takeWhile
        (fun c => !(isSep c) && c ≠ '?' && c ≠ '#') = strOf ("spacezine.local") := by
      rw [hsplit, takeWhile_append_all _ (by decide), List.takeWhile_cons,
        if_neg (by decide), List.append_nil]
    have hdropA : (strOf ("spacezine.local/uploads/") ++ g).drop
        (strOf ("spacezine.local")).length = '/' :: (strOf ("uploads/") ++ g) := by
      rw [hsplit]
      exact List.drop_left _ _
    have hptw : ('/' :: (strOf ("uploads/") ++ g)).takeWhile
        (fun c => c ≠ '?' && c ≠ '#') = '/' :: (strOf ("uploads/") ++ g) := by
      apply takeWhile_all
      intro x hx
      rcases List.mem_cons.mp hx with h | h
      · subst h; decide
      · rcases List.mem_append.mp h with h2 | h2
        · exact (by decide : ∀ y ∈ strOf ("uploads/"),
            (decide (y ≠ '?') && decide (y ≠ '#')) = true) x h2
        · have hq := hqh x h2
          simp only [Bool.and_eq_true, decide_eq_true_eq]
          exact hq
    have hsegs : splitSegs (strOf ("uploads/") ++ g) = [strOf ("uploads"), g] := by
      rw [show strOf ("uploads/") ++ g = strOf ("uploads") ++ '/' :: g from rfl,
        splitSegs_append_sep _ (by decide), splitSegs_sepfree hnosep]
    have hmap : List.map encodeSeg [strOf ("uploads"), g] = [strOf ("uploads"), g] := by
      simp only [List.map_cons, List.map_nil]
      rw [encodeSeg_plain hnoenc,
        show encodeSeg (strOf ("uploads")) = strOf ("uploads") from by decide]
    have hdots : resolveDots [] [strOf ("uploads"), g] = [strOf ("uploads"), g] := by
      show resolveDots [] (strOf ("uploads") :: g :: []) = [strOf ("uploads"), g]
      unfold resolveDots
      rw [if_neg (by decide), if_neg (by decide)]
      unfold resolveDots
      rw [if_neg (fun hcc => by rw [hdot2] at hcc; exact Bool.noConfusion hcc),
        if_neg (fun hcc => by rw [hdot1] at hcc; exact Bool.noConfusion hcc)]
      rfl
    have hic : List.intercalate ['/'] [strOf ("uploads"), g] =
        strOf ("uploads") ++ '/' :: g := by
      simp [List.intercalate, List.intersperse]
    have hbase : pathBasename ('/' :: (strOf ("uploads") ++ '/' :: g)) = g := by
      unfold pathBasename
      rw [show ('/' :: (strOf ("uploads") ++ '/' :: g) : Str) =
        (strOf ("/uploads") ++ ['/']) ++ g from rfl]
      rw [List.reverse_append]
      rw [dropWhile_rev_append _ hne (fun x hx => by
        simp only [decide_eq_false_iff_not]
        exact hsl x hx)]
      rw [← List.reverse_append, List.reverse_reverse]
      exact afterLastSlash_append_of _ hsl
    simp only [urlBasename]
    rw [hnorm]
    rw [if_neg (fun hcc => by rw [hnotHttps] at hcc; exact Bool.noConfusion hcc),
      if_pos hHttp, hdrop7]
    simp only [urlBasenameCore]
    rw [hrest, hauth]
    rw [if_neg (by decide), if_neg (by decide)]
    rw [hdropA, hptw]
    simp only [urlPathname]
    rw [hsegs, hmap, hdots, hic, hbase]
  · intro hge
    subst hge
    have h1 : endsWithCI (strOf (".jpg")) (stem ++ strOf (".jpg")) = true := by
      rw [endsWithCI_append_of_le _ (by decide)]
      decide
    have hlen : (stem ++ strOf (".jpg")).length - 4 = stem.length := by
      rw [List.length_append]
      have h4 : (strOf (".jpg")).length = 4 := rfl
      rw [h4]
      omega
    unfold toWebpName
    rw [if_pos h1, hlen, List.take_left]
  · intro hge
    subst hge
    have h1 : endsWithCI (strOf (".jpg")) (stem ++ strOf (".jpeg")) = false := by
      rw [endsWithCI_append_of_le _ (by decide)]
      decide
    have h2 : endsWithCI (strOf (".jpeg")) (stem ++ strOf (".jpeg")) = true := by
      rw [endsWithCI_append_of_le _ (by decide)]
      decide
    have hlen : (stem ++ strOf (".jpeg")).length - 5 = stem.length := by
      rw [List.length_append]
      have h5 : (strOf (".jpeg")).length = 5 := rfl
      rw [h5]
      omega
    unfold toWebpName
    rw [if_neg (by simp [h1]), if_pos h2, hlen, List.take_left]
  · intro hge
    subst hge
    have h1 : endsWithCI (strOf (".jpg")) (stem ++ strOf (".png")) = false := by
      rw [endsWithCI_append_of_le _ (by decide)]
      decide
    have h2 : endsWithCI (strOf (".jpeg")) (stem ++ strOf (".png")) = false := by
      have hs : (stem ++ strOf (".png")).reverse =
          'g' :: 'n' :: ('p' :: '.' :: stem.reverse) := by
        rw [List.reverse_append]
        rfl
      exact endsWithCI_ne_two rfl hs (by decide)
    have h3 : endsWithCI (strOf (".png")) (stem ++ strOf (".png")) = true := by
      rw [endsWithCI_append_of_le _ (by decide)]
      decide
    have hlen : (stem ++ strOf (".png")).length - 4 = stem.length := by
      rw [List.length_append]
      have h4 : (strOf (".png")).length = 4 := rfl
      rw [h4]
      omega
    unfold toWebpName
    rw [if_neg (by simp [h1]), if_neg (by simp [h2]), if_pos h3, hlen, List.take_left]
  · intro hge
    subst hge
    have h1 : endsWithCI (strOf (".jpg")) (stem ++ strOf (".gif")) = false := by
      rw [endsWithCI_append_of_le _ (by decide)]
      decide
    have h2 : endsWithCI (strOf (".jpeg")) (stem ++ strOf (".gif")) = false := by
      have hs : (stem ++ strOf (".gif")).reverse =
          'f' :: 'i' :: ('g' :: '.' :: stem.reverse) := by
        rw [List.reverse_append]
        rfl
      exact endsWithCI_ne_two rfl hs (by decide)
    have h3 : endsWithCI (strOf (".png")) (stem ++ strOf (".gif")) = false := by
      rw [endsWithCI_append_of_le _ (by decide)]
      decide
    unfold toWebpName
    rw [if_neg (by simp [h1]), if_neg (by simp [h2]), if_neg (by simp [h3])]
  · intro hge
    subst hge
    have h1 : endsWithCI (strOf (".jpg")) (stem ++ strOf (".webp")) = false := by
      rw [endsWithCI_append_of_le _ (by decide)]
      decide
    have h2 : endsWithCI (strOf (".jpeg")) (stem ++ strOf (".webp")) = false := by
      rw [endsWithCI_append_of_le _ (by decide)]
      decide
    have h3 : endsWithCI (strOf (".png")) (stem ++ strOf (".webp")) = false := by
      rw [endsWithCI_append_of_le _ (by decide)]
      decide
    unfold toWebpName
    rw [if_neg (by simp [h1]), if_neg (by simp [h2]), if_neg (by simp [h3])]

/-- C3 (witness): the amended claim at `rocket.jpg`. -/
theorem cached_filename_amended_witness :
    (strOf ("rocket.jpg")) ≠ [] ∧
      (strOf ("rocket.jpg")).all plainPathChar = true ∧
      isSingleDotSeg (strOf ("rocket.jpg")) = false ∧
      isDoubleDotSeg (strOf ("rocket.jpg")) = false ∧
      urlBasename (strOf ("http://spacezine.local/uploads/") ++ strOf ("rocket.jpg")) =
        some (strOf ("rocket.jpg")) ∧
      toWebpName (strOf ("rocket.jpg")) = strOf ("rocket") ++ strOf (".webp") :=
  ⟨by decide, by decide, by decide, by decide,
    (cached_filename_amended (strOf ("rocket.jpg")) (strOf ("rocket"))
      (by decide) (by decide) (by decide) (by decide)).1,
    (cached_filename_amended (strOf ("rocket.jpg")) (strOf ("rocket"))
      (by decide) (by decide) (by decide) (by decide)).2.1 (by decide)⟩

/-- Decidable check that no strip-attribute match starts at any position. -/
def noStripMatchesB (name s : Str) : Bool :=
  (List.range s.length).all (fun i => stripMatchAt name (s.drop i) == none)

theorem stripAttr_of_noStripB {name s : Str} (h : noStripMatchesB name s = true) :
    stripAttr name s = s := by
  apply stripAttr_of_no_match
  intro i hi
  have := List.all_eq_true.mp h i (List.mem_range.mpr hi)
  simpa using this

theorem dollar_not_mem_srcAttrOf {u : Str} (h : '$' ∉ u) : '$' ∉ srcAttrOf u := by
  intro hm
  unfold srcAttrOf at hm
  rcases List.mem_append.mp hm with h1 | h2
  · rcases List.mem_append.mp h1 with h3 | h4
    · exact absurd h3 (by decide)
    · exact h h4
  · exact absurd h2 (by decide)

theorem subst_fold_passthrough (env : Env) :
    ∀ (ms : List (Str × Str)) (acc : Str),
      (∀ m ∈ ms, isLocalUrl m.2 = false ∧ m.1 = srcAttrOf m.2 ∧ '$' ∉ m.2) →
      ms.foldl (substStep env) acc = acc := by
  intro ms
  induction ms with
  | nil => intro acc _; rfl
  | cons m rest ih =>
    intro acc h
    have hm := h m (by simp)
    have hres : (downloadImageRes env (some m.2)).1 = some m.2 := by
      simp [downloadImageRes, downloadImage, hm.1]
    have hstep : substStep env acc m = acc := by
      unfold substStep
      rw [hres]
      show replaceFirst acc m.1 (srcAttrOf m.2) = acc
      rw [hm.2.1, replaceFirst_self acc (dollar_not_mem_srcAttrOf hm.2.2)]
    simp only [List.foldl_cons, hstep]
    exact ih acc (fun x hx => h x (by simp [hx]))

theorem substituteImages_passthrough (env : Env) (c : Str)
    (h : ∀ m ∈ srcMatches c, isLocalUrl m.2 = false ∧ m.1 = srcAttrOf m.2 ∧ '$' ∉ m.2) :
    substituteImages env c = c :=
  subst_fold_passthrough env (srcMatches c) c h

/-- Markup whose `sizes` deletion splices the surrounding text into a new
`srcset` attribute. -/
def spliceContent : Str := strOf ("<img srcssizes=\"v\"et=\"w\">")

/-- C5 (counterexample): body rewriting is not idempotent.  One pass over
`<img srcssizes="v"et="w">` deletes `sizes="v"` and thereby splices the
text into `<img srcset="w">`; the second pass then deletes the spliced
`srcset` attribute, so the two passes disagree. -/
theorem transform_not_idempotent :
    transformContent envOk (transformContent envOk spliceContent) ≠
      transformContent envOk spliceContent := by decide

/-- C5 (amended): body rewriting is idempotent on any content whose first
pass leaves no `srcset`/`sizes`/`width`/`height` attribute occurrence and
whose remaining inline-image matches are lowercase `$`-free pass-through
references — the situation the spec's argument describes (substituted
local paths do not match the absolute-http(s) pattern, and the stripped
attributes are gone).  In general a second pass may differ: an attribute
deletion can splice surrounding text into a new attribute or reference,
and a pass-through URL containing a `$` substitution pattern (such as
`$&`) is mangled by the JS replacement's `GetSubstitution` expansion on
every pass. -/
theorem transform_idempotent_amended (env : Env) (c : Str)
    (hm : ∀ m ∈ srcMatches (transformContent env c),
      isLocalUrl m.2 = false ∧ m.1 = srcAttrOf m.2 ∧ '$' ∉ m.2)
    (h1 : noStripMatchesB (strOf ("srcset")) (transformContent env c) = true)
    (h2 : noStripMatchesB (strOf ("sizes")) (transformContent env c) = true)
    (h3 : noStripMatchesB (strOf ("width")) (transformContent env c) = true)
    (h4 : noStripMatchesB (strOf ("height")) (transformContent env c) = true) :
    transformContent env (transformContent env c) = transformContent env c := by
  have hsub : substituteImages env (transformContent env c) = transformContent env c :=
    substituteImages_passthrough env _ hm
  show stripAttr (strOf ("height"))
      (stripAttr (strOf ("width"))
        (stripAttr (strOf ("sizes"))
          (stripAttr (strOf ("srcset"))
            (substituteImages env (transformContent env c))))) =
    transformContent env c
  rw [hsub, stripAttr_of_noStripB h1, stripAttr_of_noStripB h2,
    stripAttr_of_noStripB h3, stripAttr_of_noStripB h4]

/-- Markup with one eligible private-origin image and one public image. -/
def mixedContent : Str :=
  strOf ("<p><img src=\"http://spacezine.local/uploads/a.jpg\"> and <img src=\"https://example.com/pub.png\"></p>")

/-- C5 (witness): the amended idempotence at a transformed mixed document. -/
theorem transform_idempotent_amended_witness :
    (∀ m ∈ srcMatches (transformContent envOk mixedContent),
        isLocalUrl m.2 = false ∧ m.1 = srcAttrOf m.2 ∧ '$' ∉ m.2) ∧
      noStripMatchesB (strOf ("srcset")) (transformContent envOk mixedContent) = true ∧
      noStripMatchesB (strOf ("sizes")) (transformContent envOk mixedContent) = true ∧
      noStripMatchesB (strOf ("width")) (transformContent envOk mixedContent) = true ∧
      noStripMatchesB (strOf ("height")) (transformContent envOk mixedContent) = true ∧
      transformContent envOk (transformContent envOk mixedContent) =
        transformContent envOk mixedContent :=
  ⟨by decide, by decide, by decide, by decide, by decide,
    transform_idempotent_amended envOk mixedContent
      (by decide) (by decide) (by decide) (by decide) (by decide)⟩

theorem srcMatches_eq_cons {s f u after : Str} (h : srcMatchAt s = some (f, u, after)) :
    srcMatches s = (f, u) :: srcMatches after := by
  cases s with
  | nil =>
    have hnil : srcMatchAt ([] : Str) = none := rfl
    rw [hnil] at h
    exact Option.noConfusion h
  | cons c rest => exact srcMatches_cons_some h

theorem replaceFirst_append' {t b : Str} (a r : Str) (hne : t ≠ []) (hd : '$' ∉ r)
    (h : ∀ i < a.length, t.isPrefixOf ((a ++ (t ++ b)).drop i) = false) :
    replaceFirst (a ++ (t ++ b)) t r = a ++ (r ++ b) := by
  have hform : a ++ (t ++ b) = a ++ t ++ b := by rw [List.append_assoc]
  rw [hform]
  rw [replaceFirst_append r hne hd (fun i hi => by
    have := h i hi
    rwa [hform] at this)]
  rw [List.append_assoc]

/-- A planted stripped attribute: one space, the attribute name, `="`, the
value, and the closing quote. -/
def attrMid (name v : Str) : Str := ' ' :: (name ++ '=' :: '"' :: (v ++ ['"']))

theorem stripAttr_stage {name v B : Str} (A : Str) {nc : Char} {ncs : Str}
    (hname : name = nc :: ncs) (hnc : isSpaceChar nc = false)
    (hv : ∀ c ∈ v, c ≠ '"')
    (hA : ∀ i < A.length, stripMatchAt name ((A ++ (attrMid name v ++ B)).drop i) = none)
    (hB : ∀ i < B.length, stripMatchAt name (B.drop i) = none) :
    stripAttr name (A ++ (attrMid name v ++ B)) = A ++ B := by
  rw [stripAttr_append_none hA]
  have hmid : attrMid name v ++ B = ' ' :: (name ++ '=' :: '"' :: (v ++ '"' :: B)) := by
    simp [attrMid]
  rw [hmid, stripAttr_cons_some (stripMatchAt_planted hname hnc hv),
    stripAttr_of_no_match hB]

theorem srcAttrOf_ne_nil (u : Str) : srcAttrOf u ≠ [] := by
  intro h
  have hlen := congrArg List.length h
  rw [srcAttrOf_length] at hlen
  simp at hlen

theorem toNat_ofNat_lt {n : Nat} (h : n < 55296) : (Char.ofNat n).toNat = n := by
  unfold Char.ofNat
  rw [dif_pos (Or.inl h : Nat.isValidChar n)]
  simp [Char.ofNatAux, Char.toNat, UInt32.toNat, BitVec.toNat_ofNatLt]

theorem toLower_ne_quote {e : Char} (h : e ≠ '"') : ('"'.toLower == e.toLower) = false := by
  simp only [beq_eq_false_iff_ne, ne_eq]
  intro hquo
  have h1 : ('"'.toLower : Char) = '"' := by decide
  rw [h1] at hquo
  unfold Char.toLower at hquo
  by_cases hc : e.toNat ≥ 65 ∧ e.toNat ≤ 90
  · rw [if_pos hc] at hquo
    have h2 := congrArg Char.toNat hquo
    have h3 : (Char.ofNat (e.toNat + 32)).toNat = e.toNat + 32 := toNat_ofNat_lt (by omega)
    rw [h3] at h2
    have h4 : ('"' : Char).toNat = 34 := by decide
    omega
  · rw [if_neg hc] at hquo
    exact h hquo.symm

theorem srcMatchAt_no_src_open {s : Str} (h : isPrefixCI srcToken s = false) :
    srcMatchAt s = none := by
  unfold srcMatchAt
  rw [if_neg (fun hc => by rw [h] at hc; exact Bool.noConfusion hc)]

theorem srcMatchAt_planted_nonhttp {u : Str} (rest : Str) (hq : ∀ c ∈ u, c ≠ '"')
    (hu : isHttpUrl u = false) :
    srcMatchAt (srcAttrOf u ++ rest) = none := by
  have h1 : srcAttrOf u ++ rest = srcToken ++ (u ++ '"' :: rest) := by
    simp [srcAttrOf]
  have hpre : isPrefixCI srcToken (srcAttrOf u ++ rest) = true := by
    rw [h1]; exact isPrefixCI_self_append _ _
  have hdrop : (srcAttrOf u ++ rest).drop 5 = u ++ '"' :: rest := by
    rw [h1]
    have hl : srcToken.length = 5 := rfl
    rw [← hl, List.drop_left]
  unfold srcMatchAt
  rw [if_pos hpre, hdrop, splitAtChar_append hq rest]
  show (if (isHttpUrl u && hasRasterExt u) = true then
      some ((srcAttrOf u ++ rest).take (u.length + 6), u, rest) else none) = none
  rw [if_neg (by rw [hu]; simp)]

theorem srcMatchAt_inner_none {lp : Str} (X : Str) (hq : ∀ c ∈ lp, c ≠ '"')
    (htail : endsWithCI (strOf ("src=")) lp = false) :
    ∀ j < lp.length, srcMatchAt (lp.drop j ++ '"' :: X) = none := by
  intro j hj
  rcases hw : lp.drop j with _ | ⟨a, _ | ⟨b, _ | ⟨c, _ | ⟨d, _ | ⟨e, w5⟩⟩⟩⟩⟩
  · exfalso
    have hlen := congrArg List.length hw
    rw [List.length_drop] at hlen
    simp at hlen
    omega
  · apply srcMatchAt_no_src_open
    show (('s'.toLower == a.toLower) &&
      (('r'.toLower == '"'.toLower) && isPrefixCI (strOf ("c=\"")) X)) = false
    rw [show ('r'.toLower == '"'.toLower) = false from by decide]
    simp
  · apply srcMatchAt_no_src_open
    show (('s'.toLower == a.toLower) && (('r'.toLower == b.toLower) &&
      (('c'.toLower == '"'.toLower) && isPrefixCI (strOf ("=\"")) X))) = false
    rw [show ('c'.toLower == '"'.toLower) = false from by decide]
    simp
  · apply srcMatchAt_no_src_open
    show (('s'.toLower == a.toLower) && (('r'.toLower == b.toLower) &&
      (('c'.toLower == c.toLower) && (('='.toLower == '"'.toLower) &&
        isPrefixCI (strOf ("\"")) X)))) = false
    rw [show ('='.toLower == '"'.toLower) = false from by decide]
    simp
  · cases hm : isPrefixCI srcToken ((a :: b :: c :: d :: []) ++ '"' :: X) with
    | false => exact srcMatchAt_no_src_open hm
    | true =>
      exfalso
      have hm' : (('s'.toLower == a.toLower) && (('r'.toLower == b.toLower) &&
          (('c'.toLower == c.toLower) && (('='.toLower == d.toLower) &&
            (('"'.toLower == '"'.toLower) && isPrefixCI ([] : Str) X))))) = true := hm
      simp only [Bool.and_eq_true, beq_iff_eq] at hm'
      obtain ⟨h1, h2, h3, h4, _⟩ := hm'
      have ha1 : a.toLower = 's' := by rw [← h1]; decide
      have hb1 : b.toLower = 'r' := by rw [← h2]; decide
      have hc1 : c.toLower = 'c' := by rw [← h3]; decide
      have hd1 : d.toLower = '=' := by rw [← h4]; decide
      have h5 := congrArg List.reverse (List.take_append_drop j lp)
      rw [List.reverse_append, hw] at h5
      have h6 : ((a :: b :: c :: d :: []) : Str).reverse ++ (lp.take j).reverse =
          d :: c :: b :: a :: (lp.take j).reverse := rfl
      rw [h6] at h5
      have hend : endsWithCI (strOf ("src=")) lp = true := by
        unfold endsWithCI
        rw [← h5]
        show (('='.toLower == d.toLower) && (('c'.toLower == c.toLower) &&
          (('r'.toLower == b.toLower) && (('s'.toLower == a.toLower) &&
            isPrefixCI ([] : Str) ((lp.take j).reverse))))) = true
        rw [ha1, hb1, hc1, hd1]
        rw [show ('='.toLower == '=') = true from by decide,
          show ('c'.toLower == 'c') = true from by decide,
          show ('r'.toLower == 'r') = true from by decide,
          show ('s'.toLower == 's') = true from by decide]
        rfl
      rw [hend] at htail
      exact Bool.noConfusion htail
  · apply srcMatchAt_no_src_open
    have hmem : e ∈ lp := by
      have h5 : e ∈ lp.drop j := by rw [hw]; simp
      exact List.mem_of_mem_drop h5
    have hqe := toLower_ne_quote (hq e hmem)
    show (('s'.toLower == a.toLower) && (('r'.toLower == b.toLower) &&
      (('c'.toLower == c.toLower) && (('='.toLower == d.toLower) &&
        (('"'.toLower == e.toLower) &&
          isPrefixCI ([] : Str) (w5 ++ '"' :: X)))))) = false
    rw [hqe]
    simp

theorem srcAttr_region_none {lp : Str} (rest : Str) (hq : ∀ c ∈ lp, c ≠ '"')
    (hh : isHttpUrl lp = false)
    (htail : endsWithCI (strOf ("src=")) lp = false) :
    ∀ i < (srcAttrOf lp).length, srcMatchAt ((srcAttrOf lp ++ rest).drop i) = none := by
  intro i hi
  rw [srcAttrOf_length] at hi
  obtain _ | _ | _ | _ | _ | j := i
  · exact srcMatchAt_planted_nonhttp rest hq hh
  · apply srcMatchAt_no_src_open
    show (('s'.toLower == 'r'.toLower) &&
      isPrefixCI (strOf ("rc=\"")) ('c' :: '=' :: '"' :: (lp ++ '"' :: rest))) = false
    rw [show ('s'.toLower == 'r'.toLower) = false from by decide]
    simp
  · apply srcMatchAt_no_src_open
    show (('s'.toLower == 'c'.toLower) &&
      isPrefixCI (strOf ("rc=\"")) ('=' :: '"' :: (lp ++ '"' :: rest))) = false
    rw [show ('s'.toLower == 'c'.toLower) = false from by decide]
    simp
  · apply srcMatchAt_no_src_open
    show (('s'.toLower == '='.toLower) &&
      isPrefixCI (strOf ("rc=\"")) ('"' :: (lp ++ '"' :: rest))) = false
    rw [show ('s'.toLower == '='.toLower) = false from by decide]
    simp
  · apply srcMatchAt_no_src_open
    show (('s'.toLower == '"'.toLower) &&
      isPrefixCI (strOf ("rc=\"")) (lp ++ '"' :: rest)) = false
    rw [show ('s'.toLower == '"'.toLower) = false from by decide]
    simp
  · have hS : srcAttrOf lp ++ rest = srcToken ++ (lp ++ '"' :: rest) := by
      simp [srcAttrOf]
    rw [hS]
    show srcMatchAt ((lp ++ '"' :: rest).drop j) = none
    by_cases hjl : j < lp.length
    · rw [List.drop_append_of_le_length (Nat.le_of_lt hjl)]
      exact srcMatchAt_inner_none rest hq htail j hjl
    · have hj5 : j = lp.length := by omega
      subst hj5
      rw [show (lp ++ '"' :: rest).drop lp.length = '"' :: rest from List.drop_left _ _]
      apply srcMatchAt_no_src_open
      show (('s'.toLower == '"'.toLower) && isPrefixCI (strOf ("rc=\"")) rest) = false
      rw [show ('s'.toLower == '"'.toLower) = false from by decide]
      simp

theorem no_match_append {a b : Str}
    (ha : ∀ i < a.length, srcMatchAt ((a ++ b).drop i) = none)
    (hb : ∀ i < b.length, srcMatchAt (b.drop i) = none) :
    ∀ i < (a ++ b).length, srcMatchAt ((a ++ b).drop i) = none := by
  intro i hi
  by_cases hia : i < a.length
  · exact ha i hia
  · obtain ⟨j, rfl⟩ : ∃ j, i = a.length + j := ⟨i - a.length, by omega⟩
    rw [List.drop_append]
    apply hb
    have hlen : (a ++ b).length = a.length + b.length := List.length_append a b
    omega

theorem isHttpUrl_slash (x : Str) : isHttpUrl ('/' :: x) = false := by
  unfold isHttpUrl
  have h1 : isPrefixCI (strOf ("http://")) ('/' :: x) = false := by
    show (('h'.toLower == '/'.toLower) && isPrefixCI (strOf ("ttp://")) x) = false
    rw [show ('h'.toLower == '/'.toLower) = false from by decide]
    simp
  have h2 : isPrefixCI (strOf ("https://")) ('/' :: x) = false := by
    show (('h'.toLower == '/'.toLower) && isPrefixCI (strOf ("ttps://")) x) = false
    rw [show ('h'.toLower == '/'.toLower) = false from by decide]
    simp
  rw [h1, h2]
  rfl

/-- Markup whose `width` deletion splices the surrounding text into a new
private-origin `src` attribute. -/
def spliceContent6 : Str := strOf ("<img srcwidth=\"q\"=\"https://x.local/a.jpg\">")

/-- C6 (counterexample): transformation does not always purge the private
origin.  One pass over `<img srcwidth="q"="https://x.local/a.jpg">` finds
no inline-image match, but the `width`-stripping pass deletes `width="q"`
and splices the text into `<img src="https://x.local/a.jpg">` — a
recognized `src` attribute pointing at the remote origin. -/
theorem remote_origin_leaks :
    containsSub (srcAttrOf (strOf ("https://x.local/a.jpg")))
        (transformContent envOk spliceContent6) = true ∧
      noLocalSrc (transformContent envOk spliceContent6) = false := by decide

/-- The eligible URL that downloads successfully in the two-reference family. -/
def okUrl : Str := strOf ("http://spacezine.local/uploads/ok.jpg")

/-- The eligible URL whose download fails in the two-reference family. -/
def missUrl : Str := strOf ("http://spacezine.local/uploads/missing.png")

/-- The local path the successful reference resolves to. -/
def okPath : Str := strOf ("/images/ok.jpg")

/-- C6 (amended): for the well-formed two-reference family — quantified
eligible URLs planted as the only inline-image matches, ordinary strippable
`srcset`/`sizes`/`width`/`height` attributes between them, and surrounding
text that starts no match of the scanned patterns, so that attribute
stripping splices no new `src` attribute — transformation substitutes
every match: the successful resolution becomes `src="<local path>"`, the
failed resolution becomes `src=""`, the four attributes are removed, and
the transformed output contains no absolute remote-origin URL in any
recognized `src` attribute (no inline-image match of the output points at
the private origin).  In general the attribute-stripping passes can splice
a new remote `src` attribute out of surrounding text (see the
counterexample). -/
theorem transform_replaces_references_amended (env : Env)
    (u1 u2 f1 pre mid post v1 v2 v3 v4 : Str)
    (hl1 : isLocalUrl u1 = true) (hl2 : isLocalUrl u2 = true)
    (hq1 : ∀ c ∈ u1, c ≠ '"') (hq2 : ∀ c ∈ u2, c ≠ '"')
    (hh1 : isHttpUrl u1 = true) (hh2 : isHttpUrl u2 = true)
    (he1 : hasRasterExt u1 = true) (he2 : hasRasterExt u2 = true)
    (hfok : env.fetchOk u1 = true) (hfmiss : env.fetchOk u2 = false)
    (hb1 : urlBasename u1 = some f1)
    (hdf : '$' ∉ f1)
    (hqf : ∀ c ∈ f1, c ≠ '"')
    (htail : endsWithCI (strOf ("src=")) (imagesWeb ++ f1) = false)
    (hv1 : ∀ c ∈ v1, c ≠ '"') (hv2 : ∀ c ∈ v2, c ≠ '"')
    (hv3 : ∀ c ∈ v3, c ≠ '"') (hv4 : ∀ c ∈ v4, c ≠ '"')
    (hscanPre : ∀ i < pre.length,
      srcMatchAt ((pre ++ (srcAttrOf u1 ++
        ((attrMid (strOf ("srcset")) v1 ++ (attrMid (strOf ("sizes")) v2 ++
          (attrMid (strOf ("width")) v3 ++ (attrMid (strOf ("height")) v4 ++ mid)))) ++
          (srcAttrOf u2 ++ post)))).drop i) = none)
    (hscanMid : ∀ i < (attrMid (strOf ("srcset")) v1 ++ (attrMid (strOf ("sizes")) v2 ++
        (attrMid (strOf ("width")) v3 ++ (attrMid (strOf ("height")) v4 ++ mid)))).length,
      srcMatchAt (((attrMid (strOf ("srcset")) v1 ++ (attrMid (strOf ("sizes")) v2 ++
        (attrMid (strOf ("width")) v3 ++ (attrMid (strOf ("height")) v4 ++ mid)))) ++
        (srcAttrOf u2 ++ post)).drop i) = none)
    (hscanPost : ∀ i < post.length, srcMatchAt (post.drop i) = none)
    (hrep1 : ∀ i < pre.length,
      (srcAttrOf u1).isPrefixOf ((pre ++ (srcAttrOf u1 ++
        ((attrMid (strOf ("srcset")) v1 ++ (attrMid (strOf ("sizes")) v2 ++
          (attrMid (strOf ("width")) v3 ++ (attrMid (strOf ("height")) v4 ++ mid)))) ++
          (srcAttrOf u2 ++ post)))).drop i) = false)
    (hrep2 : ∀ i < (pre ++ (srcAttrOf (imagesWeb ++ f1) ++
        (attrMid (strOf ("srcset")) v1 ++ (attrMid (strOf ("sizes")) v2 ++
          (attrMid (strOf ("width")) v3 ++ (attrMid (strOf ("height")) v4 ++ mid)))))).length,
      (srcAttrOf u2).isPrefixOf (((pre ++ (srcAttrOf (imagesWeb ++ f1) ++
        (attrMid (strOf ("srcset")) v1 ++ (attrMid (strOf ("sizes")) v2 ++
          (attrMid (strOf ("width")) v3 ++ (attrMid (strOf ("height")) v4 ++ mid)))))) ++
        (srcAttrOf u2 ++ post)).drop i) = false)
    (hst1a : ∀ i < (pre ++ srcAttrOf (imagesWeb ++ f1)).length,
      stripMatchAt (strOf ("srcset"))
        (((pre ++ srcAttrOf (imagesWeb ++ f1)) ++ (attrMid (strOf ("srcset")) v1 ++
          (attrMid (strOf ("sizes")) v2 ++ (attrMid (strOf ("width")) v3 ++
            (attrMid (strOf ("height")) v4 ++
              (mid ++ (srcAttrOf [] ++ post))))))).drop i) = none)
    (hst1b : ∀ i < (attrMid (strOf ("sizes")) v2 ++ (attrMid (strOf ("width")) v3 ++
        (attrMid (strOf ("height")) v4 ++ (mid ++ (srcAttrOf [] ++ post))))).length,
      stripMatchAt (strOf ("srcset"))
        ((attrMid (strOf ("sizes")) v2 ++ (attrMid (strOf ("width")) v3 ++
          (attrMid (strOf ("height")) v4 ++
            (mid ++ (srcAttrOf [] ++ post))))).drop i) = none)
    (hst2a : ∀ i < (pre ++ srcAttrOf (imagesWeb ++ f1)).length,
      stripMatchAt (strOf ("sizes"))
        (((pre ++ srcAttrOf (imagesWeb ++ f1)) ++ (attrMid (strOf ("sizes")) v2 ++
          (attrMid (strOf ("width")) v3 ++ (attrMid (strOf ("height")) v4 ++
            (mid ++ (srcAttrOf [] ++ post)))))).drop i) = none)
    (hst2b : ∀ i < (attrMid (strOf ("width")) v3 ++
        (attrMid (strOf ("height")) v4 ++ (mid ++ (srcAttrOf [] ++ post)))).length,
      stripMatchAt (strOf ("sizes"))
        ((attrMid (strOf ("width")) v3 ++
          (attrMid (strOf ("height")) v4 ++
            (mid ++ (srcAttrOf [] ++ post)))).drop i) = none)
    (hst3a : ∀ i < (pre ++ srcAttrOf (imagesWeb ++ f1)).length,
      stripMatchAt (strOf ("width"))
        (((pre ++ srcAttrOf (imagesWeb ++ f1)) ++ (attrMid (strOf ("width")) v3 ++
          (attrMid (strOf ("height")) v4 ++
            (mid ++ (srcAttrOf [] ++ post))))).drop i) = none)
    (hst3b : ∀ i < (attrMid (strOf ("height")) v4 ++
        (mid ++ (srcAttrOf [] ++ post))).length,
      stripMatchAt (strOf ("width"))
        ((attrMid (strOf ("height")) v4 ++
          (mid ++ (srcAttrOf [] ++ post))).drop i) = none)
    (hst4a : ∀ i < (pre ++ srcAttrOf (imagesWeb ++ f1)).length,
      stripMatchAt (strOf ("height"))
        (((pre ++ srcAttrOf (imagesWeb ++ f1)) ++
          (attrMid (strOf ("height")) v4 ++
            (mid ++ (srcAttrOf [] ++ post)))).drop i) = none)
    (hst4b : ∀ i < (mid ++ (srcAttrOf [] ++ post)).length,
      stripMatchAt (strOf ("height")) ((mid ++ (srcAttrOf [] ++ post)).drop i) = none)
    (houtPre : ∀ i < pre.length,
      srcMatchAt ((pre ++ (srcAttrOf (imagesWeb ++ f1) ++
        (mid ++ (srcAttrOf [] ++ post)))).drop i) = none)
    (houtMid : ∀ i < mid.length,
      srcMatchAt ((mid ++ (srcAttrOf [] ++ post)).drop i) = none) :
    transformContent env
        (pre ++ (srcAttrOf u1 ++
          ((attrMid (strOf ("srcset")) v1 ++ (attrMid (strOf ("sizes")) v2 ++
            (attrMid (strOf ("width")) v3 ++ (attrMid (strOf ("height")) v4 ++ mid)))) ++
            (srcAttrOf u2 ++ post)))) =
        pre ++ (srcAttrOf (imagesWeb ++ f1) ++ (mid ++ (srcAttrOf [] ++ post))) ∧
      noLocalSrc (pre ++ (srcAttrOf (imagesWeb ++ f1) ++
        (mid ++ (srcAttrOf [] ++ post)))) = true := by
  have hms : srcMatches (pre ++ (srcAttrOf u1 ++
      ((attrMid (strOf ("srcset")) v1 ++ (attrMid (strOf ("sizes")) v2 ++
        (attrMid (strOf ("width")) v3 ++ (attrMid (strOf ("height")) v4 ++ mid)))) ++
        (srcAttrOf u2 ++ post)))) =
      [(srcAttrOf u1, u1), (srcAttrOf u2, u2)] := by
    rw [srcMatches_append_none hscanPre,
      srcMatches_eq_cons (srcMatchAt_planted _ hq1 hh1 he1),
      srcMatches_append_none hscanMid,
      srcMatches_eq_cons (srcMatchAt_planted _ hq2 hh2 he2),
      srcMatches_of_no_match hscanPost]
  have hres1 : (downloadImageRes env (some u1)).1 = some (imagesWeb ++ f1) := by
    simp [downloadImageRes, downloadImage, hl1, hb1, hfok]
  have hres2 : (downloadImageRes env (some u2)).1 = none := by
    simp [downloadImageRes, downloadImage, hl2, hfmiss]
  have hdp : '$' ∉ (imagesWeb ++ f1 : Str) := by
    intro hm
    rcases List.mem_append.mp hm with h | h
    · exact absurd h (by decide)
    · exact hdf h
  have hstep1 : substStep env
      (pre ++ (srcAttrOf u1 ++
        ((attrMid (strOf ("srcset")) v1 ++ (attrMid (strOf ("sizes")) v2 ++
          (attrMid (strOf ("width")) v3 ++ (attrMid (strOf ("height")) v4 ++ mid)))) ++
          (srcAttrOf u2 ++ post))))
      (srcAttrOf u1, u1) =
      pre ++ (srcAttrOf (imagesWeb ++ f1) ++
        ((attrMid (strOf ("srcset")) v1 ++ (attrMid (strOf ("sizes")) v2 ++
          (attrMid (strOf ("width")) v3 ++ (attrMid (strOf ("height")) v4 ++ mid)))) ++
          (srcAttrOf u2 ++ post))) := by
    show (match (downloadImageRes env (some u1)).1 with
      | some lp =>
          replaceFirst (pre ++ (srcAttrOf u1 ++
            ((attrMid (strOf ("srcset")) v1 ++ (attrMid (strOf ("sizes")) v2 ++
              (attrMid (strOf ("width")) v3 ++ (attrMid (strOf ("height")) v4 ++ mid)))) ++
              (srcAttrOf u2 ++ post))))
            (srcAttrOf u1) (srcAttrOf lp)
      | none =>
          replaceFirst (pre ++ (srcAttrOf u1 ++
            ((attrMid (strOf ("srcset")) v1 ++ (attrMid (strOf ("sizes")) v2 ++
              (attrMid (strOf ("width")) v3 ++ (attrMid (strOf ("height")) v4 ++ mid)))) ++
              (srcAttrOf u2 ++ post))))
            (srcAttrOf u1) (srcAttrOf [])) = _
    rw [hres1]
    exact replaceFirst_append' pre (srcAttrOf (imagesWeb ++ f1)) (srcAttrOf_ne_nil _)
      (dollar_not_mem_srcAttrOf hdp) hrep1
  have hshape : pre ++ (srcAttrOf (imagesWeb ++ f1) ++
      ((attrMid (strOf ("srcset")) v1 ++ (attrMid (strOf ("sizes")) v2 ++
        (attrMid (strOf ("width")) v3 ++ (attrMid (strOf ("height")) v4 ++ mid)))) ++
        (srcAttrOf u2 ++ post))) =
      (pre ++ (srcAttrOf (imagesWeb ++ f1) ++
        (attrMid (strOf ("srcset")) v1 ++ (attrMid (strOf ("sizes")) v2 ++
          (attrMid (strOf ("width")) v3 ++ (attrMid (strOf ("height")) v4 ++ mid)))))) ++
        (srcAttrOf u2 ++ post) := by
    simp [List.append_assoc]
  have hstep2 : substStep env
      (pre ++ (srcAttrOf (imagesWeb ++ f1) ++
        ((attrMid (strOf ("srcset")) v1 ++ (attrMid (strOf ("sizes")) v2 ++
          (attrMid (strOf ("width")) v3 ++ (attrMid (strOf ("height")) v4 ++ mid)))) ++
          (srcAttrOf u2 ++ post))))
      (srcAttrOf u2, u2) =
      pre ++ (srcAttrOf (imagesWeb ++ f1) ++
        ((attrMid (strOf ("srcset")) v1 ++ (attrMid (strOf ("sizes")) v2 ++
          (attrMid (strOf ("width")) v3 ++ (attrMid (strOf ("height")) v4 ++ mid)))) ++
          (srcAttrOf [] ++ post))) := by
    show (match (downloadImageRes env (some u2)).1 with
      | some lp =>
          replaceFirst (pre ++ (srcAttrOf (imagesWeb ++ f1) ++
            ((attrMid (strOf ("srcset")) v1 ++ (attrMid (strOf ("sizes")) v2 ++
              (attrMid (strOf ("width")) v3 ++ (attrMid (strOf ("height")) v4 ++ mid)))) ++
              (srcAttrOf u2 ++ post))))
            (srcAttrOf u2) (srcAttrOf lp)
      | none =>
          replaceFirst (pre ++ (srcAttrOf (imagesWeb ++ f1) ++
            ((attrMid (strOf ("srcset")) v1 ++ (attrMid (strOf ("sizes")) v2 ++
              (attrMid (strOf ("width")) v3 ++ (attrMid (strOf ("height")) v4 ++ mid)))) ++
              (srcAttrOf u2 ++ post))))
            (srcAttrOf u2) (srcAttrOf [])) = _
    rw [hres2, hshape,
      replaceFirst_append' (pre ++ (srcAttrOf (imagesWeb ++ f1) ++
        (attrMid (strOf ("srcset")) v1 ++ (attrMid (strOf ("sizes")) v2 ++
          (attrMid (strOf ("width")) v3 ++ (attrMid (strOf ("height")) v4 ++ mid))))))
        (srcAttrOf []) (srcAttrOf_ne_nil _) (by decide) hrep2]
    simp [List.append_assoc]
  have hsubst : substituteImages env
      (pre ++ (srcAttrOf u1 ++
        ((attrMid (strOf ("srcset")) v1 ++ (attrMid (strOf ("sizes")) v2 ++
          (attrMid (strOf ("width")) v3 ++ (attrMid (strOf ("height")) v4 ++ mid)))) ++
          (srcAttrOf u2 ++ post)))) =
      pre ++ (srcAttrOf (imagesWeb ++ f1) ++
        ((attrMid (strOf ("srcset")) v1 ++ (attrMid (strOf ("sizes")) v2 ++
          (attrMid (strOf ("width")) v3 ++ (attrMid (strOf ("height")) v4 ++ mid)))) ++
          (srcAttrOf [] ++ post))) := by
    unfold substituteImages
    rw [hms]
    simp only [List.foldl_cons, List.foldl_nil]
    rw [hstep1, hstep2]
  have hassoc : pre ++ (srcAttrOf (imagesWeb ++ f1) ++
      ((attrMid (strOf ("srcset")) v1 ++ (attrMid (strOf ("sizes")) v2 ++
        (attrMid (strOf ("width")) v3 ++ (attrMid (strOf ("height")) v4 ++ mid)))) ++
        (srcAttrOf [] ++ post))) =
      (pre ++ srcAttrOf (imagesWeb ++ f1)) ++ (attrMid (strOf ("srcset")) v1 ++
        (attrMid (strOf ("sizes")) v2 ++ (attrMid (strOf ("width")) v3 ++
          (attrMid (strOf ("height")) v4 ++ (mid ++ (srcAttrOf [] ++ post)))))) := by
    simp [List.append_assoc]
  have hspace1 : isSpaceChar 's' = false := by decide
  have hspace3 : isSpaceChar 'w' = false := by decide
  have hspace4 : isSpaceChar 'h' = false := by decide
  have hname1 : strOf ("srcset") = 's' :: strOf ("rcset") := rfl
  have hname2 : strOf ("sizes") = 's' :: strOf ("izes") := rfl
  have hname3 : strOf ("width") = 'w' :: strOf ("idth") := rfl
  have hname4 : strOf ("height") = 'h' :: strOf ("eight") := rfl
  constructor
  · show stripAttr (strOf ("height"))
        (stripAttr (strOf ("width"))
          (stripAttr (strOf ("sizes"))
            (stripAttr (strOf ("srcset"))
              (substituteImages env
                (pre ++ (srcAttrOf u1 ++
                  ((attrMid (strOf ("srcset")) v1 ++ (attrMid (strOf ("sizes")) v2 ++
                    (attrMid (strOf ("width")) v3 ++
                      (attrMid (strOf ("height")) v4 ++ mid)))) ++
                    (srcAttrOf u2 ++ post)))))))) = _
    rw [hsubst, hassoc,
      stripAttr_stage (pre ++ srcAttrOf (imagesWeb ++ f1)) hname1 hspace1 hv1 hst1a hst1b,
      stripAttr_stage (pre ++ srcAttrOf (imagesWeb ++ f1)) hname2 hspace1 hv2 hst2a hst2b,
      stripAttr_stage (pre ++ srcAttrOf (imagesWeb ++ f1)) hname3 hspace3 hv3 hst3a hst3b,
      stripAttr_stage (pre ++ srcAttrOf (imagesWeb ++ f1)) hname4 hspace4 hv4 hst4a hst4b]
    simp [List.append_assoc]
  · have hT3 : ∀ i < (srcAttrOf ([] : Str) ++ post).length,
        srcMatchAt ((srcAttrOf ([] : Str) ++ post).drop i) = none :=
      no_match_append (srcAttr_region_none post (by simp) (by decide) (by decide)) hscanPost
    have hT2 : ∀ i < (mid ++ (srcAttrOf ([] : Str) ++ post)).length,
        srcMatchAt ((mid ++ (srcAttrOf ([] : Str) ++ post)).drop i) = none :=
      no_match_append houtMid hT3
    have hhp1 : isHttpUrl (imagesWeb ++ f1) = false := by
      show isHttpUrl ('/' :: (strOf ("images/") ++ f1)) = false
      exact isHttpUrl_slash _
    have hqp1 : ∀ c ∈ (imagesWeb ++ f1 : Str), c ≠ '"' := by
      intro c hc
      rcases List.mem_append.mp hc with h | h
      · exact (by decide : ∀ y ∈ imagesWeb, y ≠ '"') c h
      · exact hqf c h
    have hT1 : ∀ i < (srcAttrOf (imagesWeb ++ f1) ++
        (mid ++ (srcAttrOf ([] : Str) ++ post))).length,
        srcMatchAt ((srcAttrOf (imagesWeb ++ f1) ++
          (mid ++ (srcAttrOf ([] : Str) ++ post))).drop i) = none :=
      no_match_append (srcAttr_region_none _ hqp1 hhp1 htail) hT2
    have hOUT : ∀ i < (pre ++ (srcAttrOf (imagesWeb ++ f1) ++
        (mid ++ (srcAttrOf ([] : Str) ++ post)))).length,
        srcMatchAt ((pre ++ (srcAttrOf (imagesWeb ++ f1) ++
          (mid ++ (srcAttrOf ([] : Str) ++ post)))).drop i) = none :=
      no_match_append houtPre hT1
    have hms0 : srcMatches (pre ++ (srcAttrOf (imagesWeb ++ f1) ++
        (mid ++ (srcAttrOf ([] : Str) ++ post)))) = [] :=
      srcMatches_of_no_match hOUT
    unfold noLocalSrc
    rw [hms0]
    rfl

/-- C6 (witness): the two-reference family at concrete markup with all four
strippable attributes between the references. -/
theorem transform_replaces_references_amended_witness :
    ({ envOk with fetchOk := fun u => u ≠ missUrl } : Env).fetchOk okUrl = true ∧
      ({ envOk with fetchOk := fun u => u ≠ missUrl } : Env).fetchOk missUrl = false ∧
      (transformContent { envOk with fetchOk := fun u => u ≠ missUrl }
          (strOf ("<p><img ") ++ (srcAttrOf okUrl ++
            ((attrMid (strOf ("srcset")) (strOf ("s1 1x")) ++
              (attrMid (strOf ("sizes")) (strOf ("100vw")) ++
                (attrMid (strOf ("width")) (strOf ("640")) ++
                  (attrMid (strOf ("height")) (strOf ("480")) ++
                    strOf ("> txt <img "))))) ++
              (srcAttrOf missUrl ++ strOf (">"))))) =
          strOf ("<p><img ") ++ (srcAttrOf (imagesWeb ++ strOf ("ok.jpg")) ++
            (strOf ("> txt <img ") ++ (srcAttrOf [] ++ strOf (">")))) ∧
        noLocalSrc (strOf ("<p><img ") ++ (srcAttrOf (imagesWeb ++ strOf ("ok.jpg")) ++
          (strOf ("> txt <img ") ++ (srcAttrOf [] ++ strOf (">"))))) = true) :=
  ⟨by decide, by decide,
    transform_replaces_references_amended { envOk with fetchOk := fun u => u ≠ missUrl }
      okUrl missUrl (strOf ("ok.jpg")) (strOf ("<p><img ")) (strOf ("> txt <img "))
      (strOf (">")) (strOf ("s1 1x")) (strOf ("100vw")) (strOf ("640")) (strOf ("480"))
      (by decide) (by decide) (by decide) (by decide) (by decide) (by decide)
      (by decide) (by decide) (by decide) (by decide) (by decide) (by decide)
      (by decide) (by decide) (by decide) (by decide) (by decide) (by decide)
      (by decide) (by decide) (by decide) (by decide) (by decide) (by decide)
      (by decide) (by decide) (by decide) (by decide) (by decide) (by decide)
      (by decide) (by decide) (by decide)⟩

/-- The claim's inline reference `http://host.local/a.jpg`. -/
def url7 : Str := strOf ("http://host.local/a.jpg")

/-- The local path the claim's reference resolves to (the data-sync
downloader keeps the original extension, the "equivalent local form"). -/
def path7 : Str := strOf ("/images/a.jpg")

/-- Markup containing all four stripped attributes alongside the claim's
inline `src`, plus a fragment whose `sizes` deletion splices a new
`srcset` attribute. -/
def spliceContent7 : Str :=
  strOf ("<img src=\"http://host.local/a.jpg\" srcset=\"s\" sizes=\"z\" width=\"1\" height=\"2\" srcssizes=\"v\"et=\"w\">")

/-- C7 (counterexample): body markup containing `srcset`, `sizes`, `width`
and `height` attributes alongside `src="http://host.local/a.jpg"` whose
transformed output still contains a `srcset` attribute — deleting
`sizes="v"` splices `srcs⟨..⟩et="w"` into `srcset="w"`, which survives
because the `srcset` pass has already run. -/
theorem attr_strip_incomplete :
    containsSub (srcAttrOf url7) spliceContent7 = true ∧
      containsSub (strOf ("srcset=\"")) spliceContent7 = true ∧
      containsSub (strOf ("sizes=\"")) spliceContent7 = true ∧
      containsSub (strOf ("width=\"")) spliceContent7 = true ∧
      containsSub (strOf ("height=\"")) spliceContent7 = true ∧
      containsSub (strOf ("srcset=\"")) (transformContent envOk spliceContent7) = true := by
  decide

/-- C7 (amended): for well-formed markup — the planted reference is the
only inline-image match, each attribute value is quote-free, and the
surrounding text never starts another match of the scanned patterns — a
tag carrying `srcset`, `sizes`, `width` and `height` attributes alongside
`src="http://host.local/a.jpg"` transforms to exactly the surrounding text
with the `src` pointing at the local `/images/a.jpg` and all four
attributes (each with its leading whitespace) removed.  Without the
well-formedness conditions an attribute deletion can splice text into a
surviving attribute (see the counterexample). -/
theorem attr_strip_amended (env : Env) (pre post v1 v2 v3 v4 : Str)
    (hfetch : env.fetchOk url7 = true)
    (hv1 : ∀ c ∈ v1, c ≠ '"') (hv2 : ∀ c ∈ v2, c ≠ '"')
    (hv3 : ∀ c ∈ v3, c ≠ '"') (hv4 : ∀ c ∈ v4, c ≠ '"')
    (hscanPre : ∀ i < pre.length,
      srcMatchAt ((pre ++ (srcAttrOf url7 ++
        (attrMid (strOf ("srcset")) v1 ++ (attrMid (strOf ("sizes")) v2 ++
          (attrMid (strOf ("width")) v3 ++ (attrMid (strOf ("height")) v4 ++ post)))))).drop i)
        = none)
    (hscanRest : ∀ i < (attrMid (strOf ("srcset")) v1 ++ (attrMid (strOf ("sizes")) v2 ++
        (attrMid (strOf ("width")) v3 ++ (attrMid (strOf ("height")) v4 ++ post)))).length,
      srcMatchAt ((attrMid (strOf ("srcset")) v1 ++ (attrMid (strOf ("sizes")) v2 ++
        (attrMid (strOf ("width")) v3 ++ (attrMid (strOf ("height")) v4 ++ post)))).drop i)
        = none)
    (hrep : ∀ i < pre.length,
      (srcAttrOf url7).isPrefixOf
        ((pre ++ (srcAttrOf url7 ++
          (attrMid (strOf ("srcset")) v1 ++ (attrMid (strOf ("sizes")) v2 ++
            (attrMid (strOf ("width")) v3 ++
              (attrMid (strOf ("height")) v4 ++ post)))))).drop i) = false)
    (hst1a : ∀ i < (pre ++ srcAttrOf path7).length,
      stripMatchAt (strOf ("srcset"))
        (((pre ++ srcAttrOf path7) ++ (attrMid (strOf ("srcset")) v1 ++
          (attrMid (strOf ("sizes")) v2 ++ (attrMid (strOf ("width")) v3 ++
            (attrMid (strOf ("height")) v4 ++ post))))).drop i) = none)
    (hst1b : ∀ i < (attrMid (strOf ("sizes")) v2 ++ (attrMid (strOf ("width")) v3 ++
        (attrMid (strOf ("height")) v4 ++ post))).length,
      stripMatchAt (strOf ("srcset"))
        ((attrMid (strOf ("sizes")) v2 ++ (attrMid (strOf ("width")) v3 ++
          (attrMid (strOf ("height")) v4 ++ post))).drop i) = none)
    (hst2a : ∀ i < (pre ++ srcAttrOf path7).length,
      stripMatchAt (strOf ("sizes"))
        (((pre ++ srcAttrOf path7) ++ (attrMid (strOf ("sizes")) v2 ++
          (attrMid (strOf ("width")) v3 ++
            (attrMid (strOf ("height")) v4 ++ post)))).drop i) = none)
    (hst2b : ∀ i < (attrMid (strOf ("width")) v3 ++
        (attrMid (strOf ("height")) v4 ++ post)).length,
      stripMatchAt (strOf ("sizes"))
        ((attrMid (strOf ("width")) v3 ++
          (attrMid (strOf ("height")) v4 ++ post)).drop i) = none)
    (hst3a : ∀ i < (pre ++ srcAttrOf path7).length,
      stripMatchAt (strOf ("width"))
        (((pre ++ srcAttrOf path7) ++ (attrMid (strOf ("width")) v3 ++
          (attrMid (strOf ("height")) v4 ++ post))).drop i) = none)
    (hst3b : ∀ i < (attrMid (strOf ("height")) v4 ++ post).length,
      stripMatchAt (strOf ("width"))
        ((attrMid (strOf ("height")) v4 ++ post).drop i) = none)
    (hst4a : ∀ i < (pre ++ srcAttrOf path7).length,
      stripMatchAt (strOf ("height"))
        (((pre ++ srcAttrOf path7) ++ (attrMid (strOf ("height")) v4 ++ post)).drop i)
        = none)
    (hst4b : ∀ i < post.length,
      stripMatchAt (strOf ("height")) (post.drop i) = none) :
    transformContent env
        (pre ++ (srcAttrOf url7 ++
          (attrMid (strOf ("srcset")) v1 ++ (attrMid (strOf ("sizes")) v2 ++
            (attrMid (strOf ("width")) v3 ++ (attrMid (strOf ("height")) v4 ++ post)))))) =
      (pre ++ srcAttrOf path7) ++ post := by
  have hq : ∀ c ∈ url7, c ≠ '"' := by decide
  have hh : isHttpUrl url7 = true := by decide
  have he : hasRasterExt url7 = true := by decide
  have hms : srcMatches (pre ++ (srcAttrOf url7 ++
      (attrMid (strOf ("srcset")) v1 ++ (attrMid (strOf ("sizes")) v2 ++
        (attrMid (strOf ("width")) v3 ++ (attrMid (strOf ("height")) v4 ++ post)))))) =
      [(srcAttrOf url7, url7)] := by
    rw [srcMatches_append_none hscanPre,
      srcMatches_eq_cons (srcMatchAt_planted _ hq hh he),
      srcMatches_of_no_match hscanRest]
  have hres : (downloadImageRes env (some url7)).1 = some path7 := by
    have hl : isLocalUrl url7 = true := by decide
    have hb : urlBasename url7 = some (strOf ("a.jpg")) := by decide
    have hdi : downloadImageRes env (some url7) =
        (some (imagesWeb ++ strOf ("a.jpg")),
          env.vibrantColor (joinPath pubImagesDir (strOf ("a.jpg")))) := by
      simp [downloadImageRes, downloadImage, hl, hb, hfetch]
    rw [hdi]
    show some (imagesWeb ++ strOf ("a.jpg")) = some path7
    decide
  have hsubst : substituteImages env (pre ++ (srcAttrOf url7 ++
      (attrMid (strOf ("srcset")) v1 ++ (attrMid (strOf ("sizes")) v2 ++
        (attrMid (strOf ("width")) v3 ++ (attrMid (strOf ("height")) v4 ++ post)))))) =
      pre ++ (srcAttrOf path7 ++
        (attrMid (strOf ("srcset")) v1 ++ (attrMid (strOf ("sizes")) v2 ++
          (attrMid (strOf ("width")) v3 ++ (attrMid (strOf ("height")) v4 ++ post))))) := by
    unfold substituteImages
    rw [hms]
    simp only [List.foldl_cons, List.foldl_nil]
    show (match (downloadImageRes env (some url7)).1 with
      | some lp =>
          replaceFirst (pre ++ (srcAttrOf url7 ++
            (attrMid (strOf ("srcset")) v1 ++ (attrMid (strOf ("sizes")) v2 ++
              (attrMid (strOf ("width")) v3 ++ (attrMid (strOf ("height")) v4 ++ post))))))
            (srcAttrOf url7) (srcAttrOf lp)
      | none =>
          replaceFirst (pre ++ (srcAttrOf url7 ++
            (attrMid (strOf ("srcset")) v1 ++ (attrMid (strOf ("sizes")) v2 ++
              (attrMid (strOf ("width")) v3 ++ (attrMid (strOf ("height")) v4 ++ post))))))
            (srcAttrOf url7) (srcAttrOf [])) = _
    rw [hres]
    exact replaceFirst_append' pre (srcAttrOf path7) (srcAttrOf_ne_nil _) (by decide) hrep
  have hassoc : pre ++ (srcAttrOf path7 ++
      (attrMid (strOf ("srcset")) v1 ++ (attrMid (strOf ("sizes")) v2 ++
        (attrMid (strOf ("width")) v3 ++ (attrMid (strOf ("height")) v4 ++ post))))) =
    (pre ++ srcAttrOf path7) ++ (attrMid (strOf ("srcset")) v1 ++
      (attrMid (strOf ("sizes")) v2 ++ (attrMid (strOf ("width")) v3 ++
        (attrMid (strOf ("height")) v4 ++ post)))) :=
    (List.append_assoc _ _ _).symm
  have hspace : isSpaceChar 's' = false := by decide
  have hspace2 : isSpaceChar 'w' = false := by decide
  have hspace3 : isSpaceChar 'h' = false := by decide
  have hname1 : strOf ("srcset") = 's' :: strOf ("rcset") := rfl
  have hname2 : strOf ("sizes") = 's' :: strOf ("izes") := rfl
  have hname3 : strOf ("width") = 'w' :: strOf ("idth") := rfl
  have hname4 : strOf ("height") = 'h' :: strOf ("eight") := rfl
  show stripAttr (strOf ("height"))
      (stripAttr (strOf ("width"))
        (stripAttr (strOf ("sizes"))
          (stripAttr (strOf ("srcset"))
            (substituteImages env (pre ++ (srcAttrOf url7 ++
              (attrMid (strOf ("srcset")) v1 ++ (attrMid (strOf ("sizes")) v2 ++
                (attrMid (strOf ("width")) v3 ++
                  (attrMid (strOf ("height")) v4 ++ post)))))))))) = _
  rw [hsubst, hassoc,
    stripAttr_stage (pre ++ srcAttrOf path7) hname1 hspace hv1 hst1a hst1b,
    stripAttr_stage (pre ++ srcAttrOf path7) hname2 hspace hv2 hst2a hst2b,
    stripAttr_stage (pre ++ srcAttrOf path7) hname3 hspace2 hv3 hst3a hst3b,
    stripAttr_stage (pre ++ srcAttrOf path7) hname4 hspace3 hv4 hst4a hst4b]

/-- C7 (witness): the amended claim at concrete surrounding markup and
attribute values. -/
theorem attr_strip_amended_witness :
    envOk.fetchOk url7 = true ∧
      transformContent envOk
          (strOf ("<p><img ") ++ (srcAttrOf url7 ++
            (attrMid (strOf ("srcset")) (strOf ("s1 1x")) ++
              (attrMid (strOf ("sizes")) (strOf ("100vw")) ++
                (attrMid (strOf ("width")) (strOf ("640")) ++
                  (attrMid (strOf ("height")) (strOf ("480")) ++
                    strOf (" alt=\"x\"></p>"))))))) =
        (strOf ("<p><img ") ++ srcAttrOf path7) ++ strOf (" alt=\"x\"></p>") :=
  ⟨rfl,
    attr_strip_amended envOk (strOf ("<p><img ")) (strOf (" alt=\"x\"></p>"))
      (strOf ("s1 1x")) (strOf ("100vw")) (strOf ("640")) (strOf ("480"))
      rfl (by decide) (by decide) (by decide) (by decide) (by decide) (by decide)
      (by decide) (by decide) (by decide) (by decide) (by decide) (by decide)
      (by decide) (by decide) (by decide)⟩
